import Mathlib

/-!
# Verification development for the SLA island support-point sampler

Shallow embedding of `src/libslic3r/SLA/SupportIslands/UniformSupportIsland.cpp`
(PrusaSlicer SLA support-island sampling).  Coordinates are integers
(nanometers, `coord_t`); C++ truncating integer division is `Int.tdiv`.
Geometry utilities that live outside the embedded translation unit
(ClipperUtils, `VoronoiGraphUtils`, the `SupportIslandPoint` class hierarchy)
are modelled from the specification where a claim depends on them; each such
definition carries a doc comment that says so.
-/

set_option maxHeartbeats 1600000

namespace SupIsl

/-- 2D point with integer (nanometer) coordinates, as `Slic3r::Point`. -/
structure Pt where
  x : Int
  y : Int
deriving DecidableEq, Repr

instance : Inhabited Pt := ⟨⟨0, 0⟩⟩

/-- Axis-aligned bounding box tracked by `get_center` (its local `min`/`max`). -/
structure BBox where
  bmin : Pt
  bmax : Pt
deriving DecidableEq, Repr

/-- The x-axis half of one iteration of the scan loop in `get_center`
(UniformSupportIsland.cpp:93-101): update the running x extent with the next
point, returning `none` on the early `return false` taken as soon as the
just-updated extent exceeds `max_radius`. -/
def gc_step_x (max_radius : Int) (s : BBox) (p : Pt) : Option BBox :=
  if s.bmin.x > p.x then
    if s.bmax.x - p.x > max_radius then none else some ⟨⟨p.x, s.bmin.y⟩, s.bmax⟩
  else if s.bmax.x < p.x then
    if p.x - s.bmin.x > max_radius then none else some ⟨s.bmin, ⟨p.x, s.bmax.y⟩⟩
  else some s

/-- The y-axis half of one iteration of the scan loop in `get_center`
(UniformSupportIsland.cpp:102-110). -/
def gc_step_y (max_radius : Int) (s : BBox) (p : Pt) : Option BBox :=
  if s.bmin.y > p.y then
    if s.bmax.y - p.y > max_radius then none else some ⟨⟨s.bmin.x, p.y⟩, s.bmax⟩
  else if s.bmax.y < p.y then
    if p.y - s.bmin.y > max_radius then none else some ⟨s.bmin, ⟨s.bmax.x, p.y⟩⟩
  else some s

/-- One iteration of the scan loop in `get_center`: x-axis update then y-axis
update, each able to exit early. -/
def get_center_step (max_radius : Int) (s : BBox) (p : Pt) : Option BBox :=
  (gc_step_x max_radius s p).bind fun s2 => gc_step_y max_radius s2 p

/-- The scan loop of `get_center` over the remaining points. -/
def get_center_go (max_radius : Int) (s : BBox) : List Pt → Option BBox
  | [] => some s
  | p :: ps =>
    match get_center_step max_radius s p with
    | none => none
    | some s1 => get_center_go max_radius s1 ps

/-- `min/2 + max/2` with componentwise truncating division, as the C++
`output_center = min/2 + max/2` (UniformSupportIsland.cpp:114). -/
def half_sum_pt (a b : Pt) : Pt :=
  ⟨a.x.tdiv 2 + b.x.tdiv 2, a.y.tdiv 2 + b.y.tdiv 2⟩

/-- `get_center` (UniformSupportIsland.cpp:86-116): returns the output center
when the bounding box of `points` is at most `max_radius` wide and tall,
`none` where the C++ returns `false`. -/
def get_center (points : List Pt) (max_radius : Int) : Option Pt :=
  if points.length ≤ 2 then none
  else
    match points with
    | [] => none
    | p :: ps =>
      (get_center_go max_radius ⟨p, p⟩ ps).map fun s => half_sum_pt s.bmin s.bmax

/-- Plain x-extent extension by one point (specification of one x scan step). -/
def bb_step_x (s : BBox) (p : Pt) : BBox :=
  ⟨⟨min s.bmin.x p.x, s.bmin.y⟩, ⟨max s.bmax.x p.x, s.bmax.y⟩⟩

/-- Plain y-extent extension by one point (specification of one y scan step). -/
def bb_step_y (s : BBox) (p : Pt) : BBox :=
  ⟨⟨s.bmin.x, min s.bmin.y p.y⟩, ⟨s.bmax.x, max s.bmax.y p.y⟩⟩

/-- Plain bounding-box extension by one point (specification of one scan step). -/
def bb_step (s : BBox) (p : Pt) : BBox :=
  ⟨⟨min s.bmin.x p.x, min s.bmin.y p.y⟩, ⟨max s.bmax.x p.x, max s.bmax.y p.y⟩⟩

theorem bb_step_decomp (s : BBox) (p : Pt) :
    bb_step s p = bb_step_y (bb_step_x s p) p := rfl

/-- Plain bounding-box fold (specification of the whole scan). -/
def bb_fold (s : BBox) (l : List Pt) : BBox := l.foldl bb_step s

/-- Componentwise `min ≤ max` invariant of the scanned bounding box. -/
def BBox.Wf (s : BBox) : Prop := s.bmin.x ≤ s.bmax.x ∧ s.bmin.y ≤ s.bmax.y

theorem bb_step_x_wf {s : BBox} (h : s.Wf) (p : Pt) : (bb_step_x s p).Wf := by
  obtain ⟨hx, hy⟩ := h
  constructor <;> simp [bb_step_x] <;> omega

theorem bb_step_wf {s : BBox} (h : s.Wf) (p : Pt) : (bb_step s p).Wf := by
  obtain ⟨hx, hy⟩ := h
  constructor <;> simp [bb_step] <;> omega

theorem bb_fold_wf {s : BBox} (h : s.Wf) (l : List Pt) : (bb_fold s l).Wf := by
  induction l generalizing s with
  | nil => exact h
  | cons p ps ih => exact ih (bb_step_wf h p)

theorem pt_ext2 {a b : Pt} (hx : a.x = b.x) (hy : a.y = b.y) : a = b := by
  cases a; cases b; simp_all

theorem bbox_ext2 {a b : BBox} (h1 : a.bmin = b.bmin) (h2 : a.bmax = b.bmax) :
    a = b := by
  cases a; cases b; simp_all

theorem gc_step_x_eq {r : Int} {s : BBox} (h : s.Wf) (p : Pt) {s1 : BBox}
    (hstep : gc_step_x r s p = some s1) : s1 = bb_step_x s p := by
  obtain ⟨hx, _⟩ := h
  unfold gc_step_x at hstep
  split_ifs at hstep <;> cases hstep <;>
    (refine bbox_ext2 (pt_ext2 ?_ ?_) (pt_ext2 ?_ ?_) <;>
      simp only [bb_step_x] <;> omega)

theorem gc_step_y_eq {r : Int} {s : BBox} (h : s.Wf) (p : Pt) {s1 : BBox}
    (hstep : gc_step_y r s p = some s1) : s1 = bb_step_y s p := by
  obtain ⟨_, hy⟩ := h
  unfold gc_step_y at hstep
  split_ifs at hstep <;> cases hstep <;>
    (refine bbox_ext2 (pt_ext2 ?_ ?_) (pt_ext2 ?_ ?_) <;>
      simp only [bb_step_y] <;> omega)

theorem get_center_step_eq {r : Int} {s : BBox} (h : s.Wf) (p : Pt) {s1 : BBox}
    (hstep : get_center_step r s p = some s1) : s1 = bb_step s p := by
  unfold get_center_step at hstep
  rcases hx : gc_step_x r s p with _ | s2
  · rw [hx] at hstep; cases hstep
  · rw [hx] at hstep
    simp only [Option.some_bind] at hstep
    have h2 := gc_step_x_eq h p hx
    subst h2
    have h3 := gc_step_y_eq (bb_step_x_wf h p) p hstep
    rw [h3, bb_step_decomp]

theorem bb_fold_mono {s : BBox} (l : List Pt) :
    (bb_fold s l).bmin.x ≤ s.bmin.x ∧ s.bmax.x ≤ (bb_fold s l).bmax.x ∧
    (bb_fold s l).bmin.y ≤ s.bmin.y ∧ s.bmax.y ≤ (bb_fold s l).bmax.y := by
  induction l generalizing s with
  | nil => simp [bb_fold]
  | cons p ps ih =>
    have h1 := ih (s := bb_step s p)
    have hx : (bb_step s p).bmin.x ≤ s.bmin.x := by simp [bb_step]
    have hx2 : s.bmax.x ≤ (bb_step s p).bmax.x := by simp [bb_step]
    have hy : (bb_step s p).bmin.y ≤ s.bmin.y := by simp [bb_step]
    have hy2 : s.bmax.y ≤ (bb_step s p).bmax.y := by simp [bb_step]
    have hfold : bb_fold s (p :: ps) = bb_fold (bb_step s p) ps := rfl
    rw [hfold]
    refine ⟨?_, ?_, ?_, ?_⟩ <;> omega

theorem gc_step_x_some {r : Int} {s : BBox} (h : s.Wf) (p : Pt)
    (hgap : (bb_step_x s p).bmax.x - (bb_step_x s p).bmin.x ≤ r) :
    gc_step_x r s p = some (bb_step_x s p) := by
  obtain ⟨hx, _⟩ := h
  have hminmax : (bb_step_x s p).bmax.x - (bb_step_x s p).bmin.x =
      max s.bmax.x p.x - min s.bmin.x p.x := rfl
  rw [hminmax] at hgap
  unfold gc_step_x
  split_ifs with h1 h2 h3 h4 <;> first
    | (exfalso; omega)
    | (refine congrArg some (bbox_ext2 (pt_ext2 ?_ ?_) (pt_ext2 ?_ ?_)) <;>
        simp only [bb_step_x] <;> omega)

theorem gc_step_y_some {r : Int} {s : BBox} (h : s.Wf) (p : Pt)
    (hgap : (bb_step_y s p).bmax.y - (bb_step_y s p).bmin.y ≤ r) :
    gc_step_y r s p = some (bb_step_y s p) := by
  obtain ⟨_, hy⟩ := h
  have hminmax : (bb_step_y s p).bmax.y - (bb_step_y s p).bmin.y =
      max s.bmax.y p.y - min s.bmin.y p.y := rfl
  rw [hminmax] at hgap
  unfold gc_step_y
  split_ifs with h1 h2 h3 h4 <;> first
    | (exfalso; omega)
    | (refine congrArg some (bbox_ext2 (pt_ext2 ?_ ?_) (pt_ext2 ?_ ?_)) <;>
        simp only [bb_step_y] <;> omega)

theorem get_center_step_some {r : Int} {s : BBox} (h : s.Wf) (p : Pt)
    (hgx : (bb_step s p).bmax.x - (bb_step s p).bmin.x ≤ r)
    (hgy : (bb_step s p).bmax.y - (bb_step s p).bmin.y ≤ r) :
    get_center_step r s p = some (bb_step s p) := by
  have hgx2 : (bb_step_x s p).bmax.x - (bb_step_x s p).bmin.x ≤ r := hgx
  have h1 := gc_step_x_some h p hgx2
  have hgy2 : (bb_step_y (bb_step_x s p) p).bmax.y -
      (bb_step_y (bb_step_x s p) p).bmin.y ≤ r := hgy
  have h2 := gc_step_y_some (bb_step_x_wf h p) p hgy2
  unfold get_center_step
  rw [h1]
  simp only [Option.some_bind]
  rw [h2, bb_step_decomp]

theorem get_center_go_some {r : Int} {s : BBox} (h : s.Wf) (l : List Pt)
    (hx : (bb_fold s l).bmax.x - (bb_fold s l).bmin.x ≤ r)
    (hy : (bb_fold s l).bmax.y - (bb_fold s l).bmin.y ≤ r) :
    get_center_go r s l = some (bb_fold s l) := by
  induction l generalizing s with
  | nil => simp [get_center_go, bb_fold]
  | cons p ps ih =>
    have hmono := bb_fold_mono (s := bb_step s p) ps
    have hfold : bb_fold s (p :: ps) = bb_fold (bb_step s p) ps := rfl
    rw [hfold] at hx hy
    have hstep : get_center_step r s p = some (bb_step s p) := by
      refine get_center_step_some h p ?_ ?_ <;> omega
    have hred : get_center_go r s (p :: ps) = get_center_go r (bb_step s p) ps := by
      rw [get_center_go, hstep]
    rw [hred, ih (bb_step_wf h p) hx hy, hfold]

theorem get_center_go_eq {r : Int} {s : BBox} (h : s.Wf) {l : List Pt} {s1 : BBox}
    (hgo : get_center_go r s l = some s1) : s1 = bb_fold s l := by
  induction l generalizing s with
  | nil => simpa [get_center_go, bb_fold] using hgo.symm
  | cons p ps ih =>
    unfold get_center_go at hgo
    rcases hs : get_center_step r s p with _ | s2
    · rw [hs] at hgo; cases hgo
    · rw [hs] at hgo
      have h2 := get_center_step_eq h p hs
      subst h2
      exact ih (bb_step_wf h p) hgo

/-- Success characterization of `get_center`: on a list with more than two
points whose bounding box is at most `max_radius` wide and tall, it returns
`min/2 + max/2` of that bounding box. -/
theorem get_center_eq_of_small {r : Int} {p : Pt} {ps : List Pt}
    (hlen : 2 < (p :: ps).length)
    (hx : (bb_fold ⟨p, p⟩ ps).bmax.x - (bb_fold ⟨p, p⟩ ps).bmin.x ≤ r)
    (hy : (bb_fold ⟨p, p⟩ ps).bmax.y - (bb_fold ⟨p, p⟩ ps).bmin.y ≤ r) :
    get_center (p :: ps) r =
      some (half_sum_pt (bb_fold ⟨p, p⟩ ps).bmin (bb_fold ⟨p, p⟩ ps).bmax) := by
  have hwf : (BBox.mk p p).Wf := ⟨le_refl _, le_refl _⟩
  have hred : get_center (p :: ps) r =
      (get_center_go r ⟨p, p⟩ ps).map fun s => half_sum_pt s.bmin s.bmax := by
    unfold get_center
    rw [if_neg (by omega)]
  rw [hred, get_center_go_some hwf ps hx hy]
  rfl

/-- Truncating halving stays within one unit of the exact half:
`|a - 2 * (a.tdiv 2)| ≤ 1`. -/
theorem tdiv_two_close (a : Int) : (a - 2 * a.tdiv 2).natAbs ≤ 1 := by
  rcases le_or_lt 0 a with h | h
  · rw [Int.tdiv_eq_ediv h (by omega)]
    omega
  · have hneg : a = -(-a) := by ring
    rw [hneg, Int.neg_tdiv]
    rw [Int.tdiv_eq_ediv (by omega) (by omega)]
    omega

/-! ## Point-in-polygon (island containment) -/

/-- Modelled from the spec: testable property 1 is `I.contains(p.position)`;
polygon containment is a geometry primitive provided by an external
collaborator (spec section 2, `ExPolygon.contains`).  Standard even-odd
ray-crossing predicate for one directed edge `a → b` and a ray from `p` in
the `+x` direction. -/
def edge_crosses (p a b : Pt) : Bool :=
  let c := (b.x - a.x) * (p.y - a.y) - (b.y - a.y) * (p.x - a.x)
  if a.y ≤ p.y ∧ p.y < b.y ∧ 0 < c then true
  else if b.y ≤ p.y ∧ p.y < a.y ∧ c < 0 then true
  else false

/-- Directed edges of a polygon given as its vertex list (first/last vertices
are adjacent, spec section 3 "Polygon"). -/
def polygon_edges (poly : List Pt) : List (Pt × Pt) := poly.zip (poly.rotate 1)

/-- Modelled from the spec: `I.contains(p)` via the even-odd crossing rule. -/
def polygon_contains (poly : List Pt) (p : Pt) : Bool :=
  (polygon_edges poly).countP (fun ab => edge_crosses p ab.1 ab.2) % 2 == 1

/-! ## Support points and the top-level dispatch -/

/-- `SupportIslandPoint::Type` tags that appear in `uniform_support_island`. -/
inductive SPType
  | one_bb_center_point
  | one_center_point
  | two_points
  | two_points_backup
  | thin_part
  | thin_part_change
  | thin_part_loop
  | thick_part_outline
  | thick_part_inner
deriving DecidableEq, Repr

/-- Where a produced support point lies: a concrete 2D point (bounding-box
center), or a position on the longest path measured from its front or back. -/
inductive SPPos
  | planar (p : Pt)
  | onPath (dist : Int)
  | onRevPath (dist : Int)
deriving DecidableEq, Repr

/-- A support point as observable output: type tag plus position. -/
structure SupportPoint where
  type : SPType
  pos : SPPos
deriving DecidableEq, Repr

/-- Summary of one neighbor edge of the longest path.  `length` and
`max_width` are the `Neighbor` annotations; `cross_dist` is modelled from the
spec (`VoronoiGraphUtils::get_position_with_width`, outside this translation
unit): the distance from the edge's source node of the first point on the
edge whose local width equals the requested width (the dispatch requests
`2 * head_radius`), meaningful when the requested width is at most
`max_width`. -/
structure PathEdge where
  length : Int
  max_width : Int
  cross_dist : Int
deriving DecidableEq, Repr

/-- `create_position_on_path` (UniformSupportIsland.cpp:202-229): position at
a given arc-length distance from the front of the path, as that distance;
`none` when the distance exceeds the path (the C++ asserts). -/
def create_position_on_path (distance : Int) : List PathEdge → Int → Option Int
  | [], _ => none
  | e :: es, actual =>
    if actual + e.length ≥ distance then some distance
    else create_position_on_path distance es (actual + e.length)

/-- `create_position_on_path` width overload (UniformSupportIsland.cpp:243-281):
first position where the local width equals `width`, or the position at
exactly `max_distance`, whichever the scan meets first; returns the position
as its distance from the path front.  `none` when the scan falls off the path
(the C++ asserts). -/
def create_position_on_path_w (width max_distance : Int) :
    List PathEdge → Int → Option Int
  | [], _ => none
  | e :: es, actual =>
    if width ≤ e.max_width ∧ max_distance > actual + e.cross_dist then
      some (actual + e.cross_dist)
    else if actual + e.length ≥ max_distance then some max_distance
    else create_position_on_path_w width max_distance es (actual + e.length)

/-- The `SampleConfig` options read by the embedded code. -/
structure SampleConfig where
  head_radius : Int
  simplification_tolerance : Int
  thin_max_width : Int
  thick_min_width : Int
  thin_max_distance : Int
  thick_outline_max_distance : Int
  thick_inner_max_distance : Int
  minimal_distance_from_outline : Int
  maximal_distance_from_outline : Int
  max_align_distance : Int
  min_part_length : Int
  count_iteration : Nat
  minimal_move : Int
  max_length_for_one_support_point : Int
  max_length_for_two_support_points : Int
  max_length_ratio_for_two_support_points : Rat
deriving DecidableEq, Repr

/-- `static_cast<coord_t>` of a real value: truncation toward zero. -/
def rat_trunc (q : Rat) : Int := q.num.tdiv (q.den : Int)

/-- The data the dispatch reads off the Voronoi skeleton.  The skeleton and
longest path are built by `VoronoiGraphUtils` (outside this translation
unit); the model records the simplified contour, the longest path as edge
summaries walked from its front and from its back (the reversed walk
traverses the twin neighbors, which share `length` and `max_width`), the
path's total length and maximal width, and the combined thin/thick sampling
result of spec sections 4.3-4.7, abstracted as a point list. -/
structure IslandModel where
  contour : List Pt
  pathEdges : List PathEdge
  pathEdgesRev : List PathEdge
  pathLength : Int
  pathMaxWidth : Int
  sampled : List SupportPoint

/-- The cap on the two side points' distance from their path ends:
`max_distance = min(maximal_distance_from_outline, path_length *
max_length_ratio_for_two_support_points)` (UniformSupportIsland.cpp:2185-2186).
-/
def two_point_cap (m : IslandModel) (cfg : SampleConfig) : Int :=
  min cfg.maximal_distance_from_outline
    (rat_trunc ((m.pathLength : Rat) * cfg.max_length_ratio_for_two_support_points))

/-- `create_side_points` (UniformSupportIsland.cpp:2181-2203): one point from
each end of the longest path, at the first `2 * head_radius` width crossing
capped by `two_point_cap`. -/
def create_side_points (m : IslandModel) (cfg : SampleConfig) (ty : SPType) :
    List SupportPoint :=
  match create_position_on_path_w (2 * cfg.head_radius) (two_point_cap m cfg)
          m.pathEdges 0,
        create_position_on_path_w (2 * cfg.head_radius) (two_point_cap m cfg)
          m.pathEdgesRev 0 with
  | some d1, some d2 => [⟨ty, .onPath d1⟩, ⟨ty, .onRevPath d2⟩]
  | _, _ => []

/-- `uniform_support_island` (UniformSupportIsland.cpp:2234-2354): top-level
dispatch.  `align` abstracts `align_samples` (its loop is embedded separately
below); the thin/thick sampling result is `m.sampled`. -/
def uniform_support_island (cfg : SampleConfig) (m : IslandModel)
    (align : List SupportPoint → List SupportPoint) : List SupportPoint :=
  match get_center m.contour cfg.head_radius with
  | some center => [⟨.one_bb_center_point, .planar center⟩]
  | none =>
    if m.pathLength < cfg.max_length_for_one_support_point then
      match create_position_on_path (m.pathLength.tdiv 2) m.pathEdges 0 with
      | some d => [⟨.one_center_point, .onPath d⟩]
      | none => []
    else if m.pathMaxWidth < cfg.thin_max_width ∧
        m.pathLength < cfg.max_length_for_two_support_points then
      create_side_points m cfg .two_points
    else if m.sampled.length ≤ 2 then
      create_side_points m cfg .two_points_backup
    else
      align m.sampled

/-! ## C1: containment of returned support points -/

/-- A concave "dart" island: vertices `(0,0), (5,8), (10,0), (5,10)`
(counterclockwise, no holes, no three collinear vertices, so Douglas-Peucker
simplification at tolerance 0 keeps it unchanged). Its bounding box is
`[0,10] × [0,10]`. -/
def dart_island : List Pt := [⟨0, 0⟩, ⟨5, 8⟩, ⟨10, 0⟩, ⟨5, 10⟩]

/-- Island model for the dart: the bounding-box branch fires, so the skeleton
fields are never read. -/
def dart_model : IslandModel :=
  { contour := dart_island
    pathEdges := []
    pathEdgesRev := []
    pathLength := 0
    pathMaxWidth := 0
    sampled := [] }

/-- Config with `head_radius = 10`, so the dart's 10 x 10 bounding box passes
the `get_center` test. -/
def dart_config : SampleConfig :=
  { head_radius := 10
    simplification_tolerance := 0
    thin_max_width := 1
    thick_min_width := 1
    thin_max_distance := 1
    thick_outline_max_distance := 1
    thick_inner_max_distance := 1
    minimal_distance_from_outline := 1
    maximal_distance_from_outline := 1
    max_align_distance := 1
    min_part_length := 1
    count_iteration := 10
    minimal_move := 1
    max_length_for_one_support_point := 1
    max_length_for_two_support_points := 1
    max_length_ratio_for_two_support_points := (1 : Rat) / 2 }

/-- **C1** (code bug at the `one_bb_center` branch): on the concave dart
island with `head_radius = 10`, `uniform_support_island` takes the
bounding-box branch and returns the single point `(5,5) = min/2 + max/2`,
which lies outside the island (the island near `x = 5` is only the strip
`8 < y < 10`).  This contradicts the containment invariant
`I.contains(p.position)` (spec section 8, property 1) that the repository's
own test asserts for every returned point
(tests/sla_print/sla_supptgen_tests.cpp:455). -/
theorem C1_one_bb_center_point_outside_island :
    uniform_support_island dart_config dart_model id =
      [⟨.one_bb_center_point, .planar ⟨5, 5⟩⟩] ∧
    polygon_contains dart_island ⟨5, 5⟩ = false := by
  constructor
  · rfl
  · rfl

/-! ## C2: the bounding-box-center branch -/

/-- Exact bounding-box centroid `(min + max) / 2` of a point list (the
position the claim asserts for the `one_bb_center` point). -/
def bbox_centroid (points : List Pt) : Option Pt :=
  match points with
  | [] => none
  | p :: ps =>
    let s := bb_fold ⟨p, p⟩ ps
    some ⟨(s.bmin.x + s.bmax.x).tdiv 2, (s.bmin.y + s.bmax.y).tdiv 2⟩

/-- Triangle `(1,0), (3,0), (2,2)`: bounding box `[1,3] × [0,2]`, whose exact
centroid `(2,1)` is an integer point. -/
def tri_island : List Pt := [⟨1, 0⟩, ⟨3, 0⟩, ⟨2, 2⟩]

/-- Island model for the triangle; the bounding-box branch fires. -/
def tri_model : IslandModel :=
  { contour := tri_island
    pathEdges := []
    pathEdgesRev := []
    pathLength := 0
    pathMaxWidth := 0
    sampled := [] }

/-- Same config as the dart but with `head_radius = 2`. -/
def tri_config : SampleConfig :=
  { dart_config with head_radius := 2 }

/-- **C2** (counterexample): on the triangle `(1,0), (3,0), (2,2)` with
`head_radius = 2`, the bounding-box branch returns the point
`(1/2 + 3/2, 0/2 + 2/2) = (1,1)`, but the centroid of the bounding box is
`(2,1)`; the claimed position "the centroid of that bounding box" is wrong
by one unit because the C++ computes `min/2 + max/2` with truncating
integer division. -/
theorem C2_bb_center_misses_centroid :
    uniform_support_island tri_config tri_model id =
      [⟨.one_bb_center_point, .planar ⟨1, 1⟩⟩] ∧
    bbox_centroid tri_island = some ⟨2, 1⟩ ∧
    (Pt.mk 1 1) ≠ (Pt.mk 2 1) := by
  refine ⟨rfl, rfl, by decide⟩

/-- **C2** (amended): for every island whose simplified contour has more than
two vertices and whose bounding box is at most `head_radius` wide and at most
`head_radius` tall, `uniform_support_island` returns exactly one support
point, of type `one_bb_center`, at `min/2 + max/2` of the bounding box
(componentwise truncating division) — within one unit per axis of the exact
bounding-box centroid; no other computation contributes points. -/
theorem C2_bb_branch (cfg : SampleConfig) (m : IslandModel)
    (align : List SupportPoint → List SupportPoint) (p : Pt) (ps : List Pt)
    (hc : m.contour = p :: ps)
    (hlen : 2 < m.contour.length)
    (hx : (bb_fold ⟨p, p⟩ ps).bmax.x - (bb_fold ⟨p, p⟩ ps).bmin.x ≤ cfg.head_radius)
    (hy : (bb_fold ⟨p, p⟩ ps).bmax.y - (bb_fold ⟨p, p⟩ ps).bmin.y ≤ cfg.head_radius) :
    uniform_support_island cfg m align =
      [⟨.one_bb_center_point,
        .planar (half_sum_pt (bb_fold ⟨p, p⟩ ps).bmin (bb_fold ⟨p, p⟩ ps).bmax)⟩] ∧
    (2 * (half_sum_pt (bb_fold ⟨p, p⟩ ps).bmin (bb_fold ⟨p, p⟩ ps).bmax).x -
      ((bb_fold ⟨p, p⟩ ps).bmin.x + (bb_fold ⟨p, p⟩ ps).bmax.x)).natAbs ≤ 2 ∧
    (2 * (half_sum_pt (bb_fold ⟨p, p⟩ ps).bmin (bb_fold ⟨p, p⟩ ps).bmax).y -
      ((bb_fold ⟨p, p⟩ ps).bmin.y + (bb_fold ⟨p, p⟩ ps).bmax.y)).natAbs ≤ 2 := by
  rw [hc] at hlen
  have hgc := get_center_eq_of_small (r := cfg.head_radius) hlen hx hy
  refine ⟨?_, ?_, ?_⟩
  · unfold uniform_support_island
    rw [hc, hgc]
  · have h1 := tdiv_two_close (bb_fold ⟨p, p⟩ ps).bmin.x
    have h2 := tdiv_two_close (bb_fold ⟨p, p⟩ ps).bmax.x
    have hx2 : (half_sum_pt (bb_fold ⟨p, p⟩ ps).bmin (bb_fold ⟨p, p⟩ ps).bmax).x =
        (bb_fold ⟨p, p⟩ ps).bmin.x.tdiv 2 + (bb_fold ⟨p, p⟩ ps).bmax.x.tdiv 2 := rfl
    rw [hx2]
    omega
  · have h1 := tdiv_two_close (bb_fold ⟨p, p⟩ ps).bmin.y
    have h2 := tdiv_two_close (bb_fold ⟨p, p⟩ ps).bmax.y
    have hy2 : (half_sum_pt (bb_fold ⟨p, p⟩ ps).bmin (bb_fold ⟨p, p⟩ ps).bmax).y =
        (bb_fold ⟨p, p⟩ ps).bmin.y.tdiv 2 + (bb_fold ⟨p, p⟩ ps).bmax.y.tdiv 2 := rfl
    rw [hy2]
    omega

/-- Witness for `C2_bb_branch` at the concrete triangle island. -/
theorem C2_bb_branch_witness :
    uniform_support_island tri_config tri_model id =
      [⟨.one_bb_center_point,
        .planar (half_sum_pt (bb_fold ⟨⟨1, 0⟩, ⟨1, 0⟩⟩ [⟨3, 0⟩, ⟨2, 2⟩]).bmin
          (bb_fold ⟨⟨1, 0⟩, ⟨1, 0⟩⟩ [⟨3, 0⟩, ⟨2, 2⟩]).bmax)⟩] ∧
    (2 * (half_sum_pt (bb_fold ⟨⟨1, 0⟩, ⟨1, 0⟩⟩ [⟨3, 0⟩, ⟨2, 2⟩]).bmin
        (bb_fold ⟨⟨1, 0⟩, ⟨1, 0⟩⟩ [⟨3, 0⟩, ⟨2, 2⟩]).bmax).x -
      ((bb_fold ⟨⟨1, 0⟩, ⟨1, 0⟩⟩ [⟨3, 0⟩, ⟨2, 2⟩]).bmin.x +
        (bb_fold ⟨⟨1, 0⟩, ⟨1, 0⟩⟩ [⟨3, 0⟩, ⟨2, 2⟩]).bmax.x)).natAbs ≤ 2 ∧
    (2 * (half_sum_pt (bb_fold ⟨⟨1, 0⟩, ⟨1, 0⟩⟩ [⟨3, 0⟩, ⟨2, 2⟩]).bmin
        (bb_fold ⟨⟨1, 0⟩, ⟨1, 0⟩⟩ [⟨3, 0⟩, ⟨2, 2⟩]).bmax).y -
      ((bb_fold ⟨⟨1, 0⟩, ⟨1, 0⟩⟩ [⟨3, 0⟩, ⟨2, 2⟩]).bmin.y +
        (bb_fold ⟨⟨1, 0⟩, ⟨1, 0⟩⟩ [⟨3, 0⟩, ⟨2, 2⟩]).bmax.y)).natAbs ≤ 2 :=
  C2_bb_branch tri_config tri_model id ⟨1, 0⟩ [⟨3, 0⟩, ⟨2, 2⟩] rfl
    (by decide) (by decide) (by decide)

/-! ## C5: the two-point placement -/

/-- Total length of a list of path edges. -/
def sum_lengths (l : List PathEdge) : Int := (l.map (·.length)).sum

/-- Specification-side scan: global distance of the width crossing on the
first edge whose `max_width` reaches `width` (the first position along the
path where the local width equals the requested width). -/
def first_cross (width : Int) : List PathEdge → Int → Option Int
  | [], _ => none
  | e :: es, actual =>
    if width ≤ e.max_width then some (actual + e.cross_dist)
    else first_cross width es (actual + e.length)

/-- Specification-side distance of a side point from its path end: the first
width crossing, capped at `cap`; exactly `cap` when no crossing exists. -/
def side_point_dist (width cap : Int) (path : List PathEdge) : Int :=
  match first_cross width path 0 with
  | some d => min d cap
  | none => cap

/-- Edge validity: the width crossing lies on the edge and lengths are
nonnegative. -/
abbrev EdgesWf (l : List PathEdge) : Prop :=
  ∀ e ∈ l, 0 ≤ e.cross_dist ∧ e.cross_dist ≤ e.length ∧ 0 ≤ e.length

theorem first_cross_ge (width : Int) {l : List PathEdge} (hwf : EdgesWf l) :
    ∀ {a d : Int}, first_cross width l a = some d → a ≤ d := by
  induction l with
  | nil => intro a d h; cases h
  | cons e es ih =>
    intro a d h
    obtain ⟨hc, hcl, hl⟩ := hwf e (by simp)
    have hwf2 : EdgesWf es := fun x hx => hwf x (by simp [hx])
    unfold first_cross at h
    split_ifs at h with h1
    · injection h with h2; omega
    · have := ih hwf2 h
      omega

theorem create_position_on_path_w_eq (width md : Int) :
    ∀ (l : List PathEdge) (actual : Int), l ≠ [] → EdgesWf l →
    md ≤ actual + sum_lengths l →
    create_position_on_path_w width md l actual =
      some (match first_cross width l actual with
            | some d => min d md
            | none => md) := by
  intro l
  induction l with
  | nil => intro actual hne; exact absurd rfl hne
  | cons e es ih =>
    intro actual _ hwf htot
    obtain ⟨hc, hcl, hl⟩ := hwf e (by simp)
    have hwf2 : EdgesWf es := fun x hx => hwf x (by simp [hx])
    have hsum : sum_lengths (e :: es) = e.length + sum_lengths es := by
      simp [sum_lengths]
    rw [hsum] at htot
    unfold create_position_on_path_w
    split_ifs with h1 h2
    · -- crossing found strictly before the cap
      obtain ⟨hw, hlt⟩ := h1
      have hfc : first_cross width (e :: es) actual = some (actual + e.cross_dist) := by
        simp only [first_cross]
        rw [if_pos hw]
      rw [hfc]
      dsimp only
      have hmin : min (actual + e.cross_dist) md = actual + e.cross_dist := by omega
      rw [hmin]
    · -- cap reached on this edge
      by_cases hw : width ≤ e.max_width
      · have hfc : first_cross width (e :: es) actual = some (actual + e.cross_dist) := by
          simp only [first_cross]
          rw [if_pos hw]
        rw [hfc]
        dsimp only
        have hgt : ¬ md > actual + e.cross_dist := fun hgt => h1 ⟨hw, hgt⟩
        have hmin : min (actual + e.cross_dist) md = md := by omega
        rw [hmin]
      · have hfc : first_cross width (e :: es) actual =
            first_cross width es (actual + e.length) := by
          simp only [first_cross]
          rw [if_neg hw]
        rw [hfc]
        rcases hfc2 : first_cross width es (actual + e.length) with _ | d
        · rfl
        · dsimp only
          have hd := first_cross_ge width hwf2 hfc2
          have hmin : min d md = md := by omega
          rw [hmin]
    · -- walk on to the next edge
      have hes : es ≠ [] := by
        intro h
        subst h
        simp [sum_lengths] at htot
        omega
      have htot2 : md ≤ (actual + e.length) + sum_lengths es := by omega
      rw [ih (actual + e.length) hes hwf2 htot2]
      have hw : ¬ width ≤ e.max_width := by
        intro hw
        exact h1 ⟨hw, by omega⟩
      have hfc : first_cross width (e :: es) actual =
          first_cross width es (actual + e.length) := by
        simp only [first_cross]
        rw [if_neg hw]
      rw [hfc]

/-- **C5**: whenever the dispatch reaches the two-point case (bounding-box
and one-point cases failed, maximal path width below `thin_max_width`, path
length below `max_length_for_two_support_points`), exactly two points of
type `two_points` are emitted; each lies at the first position from its end
of the longest path where the local width first equals `2 * head_radius`,
capped at `min(maximal_distance_from_outline, path_length *
max_length_ratio_for_two_support_points)` from that end, and exactly at the
cap when no crossing occurs before it. -/
theorem C5_two_point_case (cfg : SampleConfig) (m : IslandModel)
    (align : List SupportPoint → List SupportPoint)
    (h0 : get_center m.contour cfg.head_radius = none)
    (h1 : ¬ m.pathLength < cfg.max_length_for_one_support_point)
    (h2 : m.pathMaxWidth < cfg.thin_max_width)
    (h3 : m.pathLength < cfg.max_length_for_two_support_points)
    (hwfF : EdgesWf m.pathEdges) (hwfR : EdgesWf m.pathEdgesRev)
    (hneF : m.pathEdges ≠ []) (hneR : m.pathEdgesRev ≠ [])
    (htF : two_point_cap m cfg ≤ sum_lengths m.pathEdges)
    (htR : two_point_cap m cfg ≤ sum_lengths m.pathEdgesRev) :
    uniform_support_island cfg m align =
      [⟨.two_points, .onPath (side_point_dist (2 * cfg.head_radius)
          (two_point_cap m cfg) m.pathEdges)⟩,
       ⟨.two_points, .onRevPath (side_point_dist (2 * cfg.head_radius)
          (two_point_cap m cfg) m.pathEdgesRev)⟩] := by
  have hF := create_position_on_path_w_eq (2 * cfg.head_radius) (two_point_cap m cfg)
    m.pathEdges 0 hneF hwfF (by simpa using htF)
  have hR := create_position_on_path_w_eq (2 * cfg.head_radius) (two_point_cap m cfg)
    m.pathEdgesRev 0 hneR hwfR (by simpa using htR)
  unfold uniform_support_island
  rw [h0]
  unfold create_side_points
  rw [if_neg h1, if_pos ⟨h2, h3⟩, hF, hR]
  unfold side_point_dist
  rcases first_cross (2 * cfg.head_radius) m.pathEdges 0 with _ | d1 <;>
    rcases first_cross (2 * cfg.head_radius) m.pathEdgesRev 0 with _ | d2 <;> rfl

/-- Concrete two-point scenario: 200-long path of two 100-long edges,
width `2 * head_radius = 10` first reached on the second edge at global
distance 135 (forward) and 65 (backward), cap `min(30, 200/4) = 30`. -/
def tp_model : IslandModel :=
  { contour := [⟨0, 0⟩, ⟨300, 0⟩, ⟨150, 40⟩]
    pathEdges := [⟨100, 8, 0⟩, ⟨100, 12, 35⟩]
    pathEdgesRev := [⟨100, 12, 65⟩, ⟨100, 8, 0⟩]
    pathLength := 200
    pathMaxWidth := 12
    sampled := [] }

/-- Config for the two-point scenario. -/
def tp_config : SampleConfig :=
  { dart_config with
    head_radius := 5
    thin_max_width := 20
    maximal_distance_from_outline := 30
    max_length_for_one_support_point := 50
    max_length_for_two_support_points := 500
    max_length_ratio_for_two_support_points := (1 : Rat) / 4 }

/-- Witness for `C5_two_point_case`: on the concrete scenario both crossings
(135 and 65) lie beyond the cap 30, so both points sit exactly at the cap. -/
theorem C5_two_point_case_witness :
    uniform_support_island tp_config tp_model id =
      [⟨.two_points, .onPath (side_point_dist (2 * tp_config.head_radius)
          (two_point_cap tp_model tp_config) tp_model.pathEdges)⟩,
       ⟨.two_points, .onRevPath (side_point_dist (2 * tp_config.head_radius)
          (two_point_cap tp_model tp_config) tp_model.pathEdgesRev)⟩] :=
  C5_two_point_case tp_config tp_model id (by decide) (by decide) (by decide)
    (by decide) (by decide) (by decide) (by decide) (by decide)
    (le_trans (min_le_left _ _) (by decide)) (le_trans (min_le_left _ _) (by decide))

/-! ## C3: the alignment iteration loop -/

/-- Largest `size_t` value (the loop counter of `align_samples` is 64-bit). -/
def size_t_max : Nat := 2 ^ 64 - 1

/-- Body of `while (--count_iteration > 1) { max_move = align_once(...); if
(max_move < minimal_move) break; }` (UniformSupportIsland.cpp:496-501),
counting executed `align_once` sweeps.  `c1` is the counter value after the
pre-decrement; `step i` abstracts the `max_move` returned by the `i`-th
`align_once` call (its geometry — CGAL Voronoi cells clipped to the island —
is outside this embedding). -/
def align_go (mm : Int) (step : Nat → Int) : Nat → Nat → Nat
  | 0, _ => 0
  | 1, _ => 0
  | c + 2, i => if step i < mm then 1 else 1 + align_go mm step (c + 1) (i + 1)

/-- Number of `align_once` sweeps executed by `align_samples`
(UniformSupportIsland.cpp:477-515): none for a single sample or when no
sample is movable; otherwise the loop pre-decrements the `size_t` copy of
`count_iteration`, so starting from `0` it wraps to `2^64 - 1`. -/
def align_samples_sweeps (samples_len : Nat) (exist_moveable : Bool)
    (count_iteration : Nat) (mm : Int) (step : Nat → Int) : Nat :=
  if samples_len = 1 then 0
  else if !exist_moveable then 0
  else align_go mm step (if count_iteration = 0 then size_t_max else count_iteration - 1) 0

theorem align_go_le (mm : Int) (step : Nat → Int) :
    ∀ c1 i, align_go mm step c1 i ≤ c1 - 1 := by
  intro c1
  induction c1 using Nat.strong_induction_on with
  | _ c1 ih =>
    intro i
    match c1 with
    | 0 => simp [align_go]
    | 1 => simp [align_go]
    | c + 2 =>
      unfold align_go
      split_ifs
      · omega
      · have := ih (c + 1) (by omega) (i + 1)
        omega

theorem align_go_stop (mm : Int) (step : Nat → Int) :
    ∀ c1 i0 j, j + 1 < align_go mm step c1 i0 → ¬ step (i0 + j) < mm := by
  intro c1
  induction c1 using Nat.strong_induction_on with
  | _ c1 ih =>
    intro i0 j hj
    match c1 with
    | 0 => simp [align_go] at hj
    | 1 => simp [align_go] at hj
    | c + 2 =>
      unfold align_go at hj
      split_ifs at hj with hs
      · omega
      · match j with
        | 0 => simpa using hs
        | j' + 1 =>
          have := ih (c + 1) (by omega) (i0 + 1) j' (by omega)
          simpa [Nat.add_assoc, Nat.add_comm 1 j'] using this

/-- When no sweep ever reports a move below `minimal_move`, the loop runs its
counter all the way down. -/
theorem align_go_no_stop (mm : Int) (step : Nat → Int)
    (hs : ∀ i, ¬ step i < mm) : ∀ c1 i, align_go mm step c1 i = c1 - 1 := by
  intro c1
  induction c1 using Nat.strong_induction_on with
  | _ c1 ih =>
    intro i
    match c1 with
    | 0 => simp [align_go]
    | 1 => simp [align_go]
    | c + 2 =>
      unfold align_go
      rw [if_neg (hs i)]
      have := ih (c + 1) (by omega) (i + 1)
      omega

/-- **C3** (amended): for every sample set, island and config, the alignment
loop terminates, performing at most `2^64 - 2` sweeps; when
`count_iteration ≥ 1` it performs at most `count_iteration` sweeps (in fact
at most `count_iteration - 2`); it stops as soon as a sweep's maximal move is
below `minimal_move` (every sweep except possibly the last reported
`max_move ≥ minimal_move`).  For `count_iteration = 0` the bound
`count_iteration` itself fails: the `size_t` counter wraps (see the
counterexample). -/
theorem C3_align_iteration_bounds (samples_len : Nat) (exist_moveable : Bool)
    (count_iteration : Nat) (mm : Int) (step : Nat → Int)
    (hc : count_iteration ≤ size_t_max) :
    align_samples_sweeps samples_len exist_moveable count_iteration mm step ≤ 2 ^ 64 - 2 ∧
    (1 ≤ count_iteration →
      align_samples_sweeps samples_len exist_moveable count_iteration mm step ≤
        count_iteration) ∧
    (∀ i, i + 1 <
        align_samples_sweeps samples_len exist_moveable count_iteration mm step →
      ¬ step i < mm) := by
  unfold align_samples_sweeps
  split_ifs with hlen hmov hzero
  · simp
  · simp
  · refine ⟨?_, ?_, ?_⟩
    · have h := align_go_le mm step size_t_max 0
      unfold size_t_max at h ⊢
      omega
    · intro hge
      omega
    · intro i hi
      simpa using align_go_stop mm step size_t_max 0 i hi
  · refine ⟨?_, ?_, ?_⟩
    · have h := align_go_le mm step (count_iteration - 1) 0
      unfold size_t_max at hc
      omega
    · intro hge
      have h := align_go_le mm step (count_iteration - 1) 0
      omega
    · intro i hi
      simpa using align_go_stop mm step (count_iteration - 1) 0 i hi

/-- Witness for `C3_align_iteration_bounds`: three samples, movable, ten
iterations, every sweep moving by 7 with `minimal_move = 3` never stops
early, so the loop runs `10 - 2 = 8` sweeps. -/
theorem C3_align_iteration_bounds_witness :
    align_samples_sweeps 3 true 10 3 (fun _ => 7) ≤ 2 ^ 64 - 2 ∧
    (1 ≤ 10 →
      align_samples_sweeps 3 true 10 3 (fun _ => 7) ≤ 10) ∧
    (∀ i, i + 1 < align_samples_sweeps 3 true 10 3 (fun _ => 7) →
      ¬ (fun _ : Nat => (7 : Int)) i < 3) :=
  C3_align_iteration_bounds 3 true 10 3 (fun _ => 7) (by decide)

/-- **C3** (counterexample): with `count_iteration = 0` (and sweeps that
never fall below `minimal_move = 0`), the `size_t` counter of the loop
`while (--count_iteration > 1)` wraps to `2^64 - 1` on the first decrement
and the loop performs `2^64 - 2` sweeps — far more than the claimed bound of
`count_iteration = 0` sweeps. -/
theorem C3_zero_iteration_wraps :
    align_samples_sweeps 3 true 0 0 (fun _ => 0) = 2 ^ 64 - 2 ∧
    ¬ align_samples_sweeps 3 true 0 0 (fun _ => 0) ≤ 0 := by
  have h := align_go_no_stop 0 (fun _ => 0) (fun i => by simp) size_t_max 0
  have he : align_samples_sweeps 3 true 0 0 (fun _ => 0) =
      align_go 0 (fun _ => 0) size_t_max 0 := by
    unfold align_samples_sweeps
    simp
  rw [he, h]
  unfold size_t_max
  omega

/-! ## C4: duplicate resolution after an alignment sweep -/

/-- Strict comparator of `move_duplicit_positions`
(UniformSupportIsland.cpp:317-322): sort by x and then by y. -/
def pt_lex_lt (a b : Pt) : Prop := a.x < b.x ∨ (a.x = b.x ∧ a.y < b.y)

instance : DecidableRel pt_lex_lt := fun a b =>
  inferInstanceAs (Decidable (a.x < b.x ∨ (a.x = b.x ∧ a.y < b.y)))

/-- `std::sort` order induced by the strict comparator: `a` may precede `b`
when `b` does not strictly precede `a`. -/
def pt_lex_le (a b : Pt) : Prop := ¬ pt_lex_lt b a

instance : DecidableRel pt_lex_le := fun a b =>
  inferInstanceAs (Decidable (¬ pt_lex_lt b a))

theorem pt_lex_le_antisymm {a b : Pt} (h1 : pt_lex_le a b) (h2 : pt_lex_le b a) :
    a = b := by
  unfold pt_lex_le pt_lex_lt at h1 h2
  refine pt_ext2 ?_ ?_ <;> omega

/-- Index comparison through a fixed position list (the C++ sorts an index
vector with a comparator reading `aligned`). -/
def idx_le (aligned : List Pt) (i j : Nat) : Prop :=
  pt_lex_le (aligned.getD i default) (aligned.getD j default)

instance (aligned : List Pt) : DecidableRel (idx_le aligned) := fun i j =>
  inferInstanceAs (Decidable (pt_lex_le _ _))

instance (aligned : List Pt) : IsTotal Nat (idx_le aligned) := ⟨by
  intro i j
  unfold idx_le pt_lex_le pt_lex_lt
  omega⟩

instance (aligned : List Pt) : IsTrans Nat (idx_le aligned) := ⟨by
  intro i j k h1 h2
  unfold idx_le pt_lex_le pt_lex_lt at h1 h2 ⊢
  omega⟩

/-- The sorted index permutation (`std::sort` on `sorted`,
UniformSupportIsland.cpp:315-323 and 348; `std::sort` leaves the relative
order of equal positions unspecified, modelled here as insertion order). -/
def sorted_indices (aligned : List Pt) : List Nat :=
  List.insertionSort (idx_le aligned) (List.range aligned.length)

/-- The scan of `get_duplicit_index` (UniformSupportIsland.cpp:325-335) over
the tail of the sorted index list: first index whose position equals its
predecessor's position. -/
def get_duplicit_go (aligned : List Pt) : Pt → List Nat → Option Nat
  | _, [] => none
  | prev, i :: rest =>
    if aligned.getD i default = prev then some i
    else get_duplicit_go aligned (aligned.getD i default) rest

/-- `get_duplicit_index`; `none` models the C++ returning `sorted.size()`. -/
def get_duplicit_index (aligned : List Pt) (sorted : List Nat) : Option Nat :=
  match sorted with
  | [] => none
  | i :: rest => get_duplicit_go aligned (aligned.getD i default) rest

/-- `move_duplicit_positions` (UniformSupportIsland.cpp:312-350).  The
polymorphic `SupportIslandPoint::move` lives outside this translation unit;
modelled from the spec (section 4.8 step 2): `move i target` is the new
position of support `i` after its restricted move toward `target`.  The C++
`do`-loop has no iteration cap, so `fuel` bounds it and `none` models
non-termination. -/
def move_duplicit_go (move : Nat → Pt → Pt) (prev : List Pt) :
    Nat → List Pt → Option (List Pt)
  | 0, _ => none
  | fuel + 1, aligned =>
    match get_duplicit_index aligned (sorted_indices aligned) with
    | none => some aligned
    | some i =>
      move_duplicit_go move prev fuel
        (aligned.set i
          (move i (half_sum_pt (prev.getD i default) (aligned.getD i default))))

theorem gdg_none_chain (aligned : List Pt) :
    ∀ (l : List Nat) (p : Pt), get_duplicit_go aligned p l = none →
      List.Chain' (fun i j => aligned.getD i default ≠ aligned.getD j default) l ∧
      (∀ i ∈ l.head?, aligned.getD i default ≠ p) := by
  intro l
  induction l with
  | nil =>
    intro p _
    constructor
    · exact List.chain'_nil
    · simp
  | cons i rest ih =>
    intro p h
    unfold get_duplicit_go at h
    split_ifs at h with heq
    obtain ⟨hch, hhd⟩ := ih (aligned.getD i default) h
    refine ⟨List.chain'_cons'.mpr ⟨?_, hch⟩, ?_⟩
    · intro j hj
      exact (hhd j hj).symm
    · intro j hj
      simp only [List.head?_cons, Option.mem_def, Option.some.injEq] at hj
      subst hj
      exact heq

theorem sorted_chain_pairwise (aligned : List Pt) :
    ∀ (l : List Nat), List.Sorted (idx_le aligned) l →
      List.Chain' (fun i j => aligned.getD i default ≠ aligned.getD j default) l →
      List.Pairwise (fun i j => aligned.getD i default ≠ aligned.getD j default) l := by
  intro l
  induction l with
  | nil =>
    intro _ _
    exact List.Pairwise.nil
  | cons i rest ih =>
    intro hs hc
    obtain ⟨hhead, hs'⟩ := List.sorted_cons.mp hs
    refine List.Pairwise.cons ?_ (ih hs' hc.tail)
    intro j hj
    match rest, hj, hc with
    | k :: rest', hj, hc =>
      have hlink : aligned.getD i default ≠ aligned.getD k default :=
        (List.chain'_cons'.mp hc).1 k rfl
      rcases List.mem_cons.mp hj with rfl | hj'
      · exact hlink
      · intro heq
        obtain ⟨hk, _⟩ := List.sorted_cons.mp hs'
        have h1 : idx_le aligned i k := hhead k (by simp)
        have h2 : idx_le aligned k j := hk j hj'
        unfold idx_le at h1 h2
        rw [← heq] at h2
        exact hlink (pt_lex_le_antisymm h1 h2)

theorem map_getD_range (l : List Pt) :
    (List.range l.length).map (fun i => l.getD i default) = l := by
  induction l with
  | nil => simp
  | cons a t ih =>
    rw [List.length_cons, List.range_succ_eq_map, List.map_cons, List.map_map]
    have h2 : ((fun i => (a :: t).getD i default) ∘ Nat.succ) =
        fun i => t.getD i default := by
      funext i
      simp
    rw [h2]
    simp only [List.getD_cons_zero]
    rw [ih]

theorem pairwise_ne_of_no_duplicit (aligned : List Pt)
    (h : get_duplicit_index aligned (sorted_indices aligned) = none) :
    aligned.Pairwise (· ≠ ·) := by
  have hperm : (sorted_indices aligned).Perm (List.range aligned.length) :=
    List.perm_insertionSort _ _
  have hsorted : List.Sorted (idx_le aligned) (sorted_indices aligned) :=
    List.sorted_insertionSort _ _
  have hch : List.Chain'
      (fun i j => aligned.getD i default ≠ aligned.getD j default)
      (sorted_indices aligned) := by
    unfold get_duplicit_index at h
    rcases hl : sorted_indices aligned with _ | ⟨i, rest⟩
    · exact List.chain'_nil
    · rw [hl] at h
      obtain ⟨hch, hhd⟩ := gdg_none_chain aligned rest (aligned.getD i default) h
      exact List.chain'_cons'.mpr ⟨fun j hj => (hhd j hj).symm, hch⟩
  have hpw := sorted_chain_pairwise aligned _ hsorted hch
  have hmap : ((sorted_indices aligned).map
      (fun i => aligned.getD i default)).Pairwise (· ≠ ·) :=
    List.pairwise_map.mpr hpw
  have hpm : ((sorted_indices aligned).map (fun i => aligned.getD i default)).Perm
      ((List.range aligned.length).map (fun i => aligned.getD i default)) :=
    hperm.map _
  have h2 := (hpm.pairwise_iff (fun h => h.symm)).mp hmap
  rwa [map_getD_range] at h2

/-- **C4** (amended, distinctness part): whenever the duplicate-resolution
loop of `move_duplicit_positions` returns (which it does only by finding no
duplicate in the sorted scan — every alignment sweep ends with this loop),
the returned positions are pairwise distinct.  The resolution move target is
`prev/2 + cur/2` with truncating integer division, applied through the
point's movement restriction — not the exact halfway point (see the
counterexample). -/
theorem C4_positions_distinct_after_alignment (move : Nat → Pt → Pt)
    (prev : List Pt) (fuel : Nat) (aligned ps : List Pt)
    (h : move_duplicit_go move prev fuel aligned = some ps) :
    ps.Pairwise (· ≠ ·) := by
  induction fuel generalizing aligned with
  | zero => cases h
  | succ fuel ih =>
    unfold move_duplicit_go at h
    split at h
    · injection h with h2
      subst h2
      rename_i hg
      exact pairwise_ne_of_no_duplicit _ hg
    · exact ih _ h

/-- Witness for `C4_positions_distinct_after_alignment`: a two-point list
with no duplicates is returned unchanged and is pairwise distinct. -/
theorem C4_positions_distinct_after_alignment_witness :
    move_duplicit_go (fun _ t => t) [] 1 [⟨0, 0⟩, ⟨5, 5⟩] =
      some [⟨0, 0⟩, ⟨5, 5⟩] ∧
    List.Pairwise (· ≠ ·) [Pt.mk 0 0, Pt.mk 5 5] :=
  ⟨by decide,
   C4_positions_distinct_after_alignment (fun _ t => t) [] 1
     [⟨0, 0⟩, ⟨5, 5⟩] [⟨0, 0⟩, ⟨5, 5⟩] (by decide)⟩

/-- **C4** (counterexample to the "halfway back" part): positions
`[(3,0), (3,0)]` with pre-move positions `[(3,0), (1,0)]` — point 1 has just
moved from `(1,0)` to `(3,0)`.  The claim says it is moved halfway back, to
`(2,0)`; the code computes `prev/2 + cur/2 = 1/2 + 3/2 = 0 + 1 = 1` per
coordinate, moving it all the way back to `(1,0)` (the move itself modelled
as unrestricted).  The final list is `[(3,0), (1,0)]`, not
`[(3,0), (2,0)]`. -/
theorem C4_duplicate_not_moved_halfway :
    move_duplicit_go (fun _ t => t) [⟨3, 0⟩, ⟨1, 0⟩] 3 [⟨3, 0⟩, ⟨3, 0⟩] =
      some [⟨3, 0⟩, ⟨1, 0⟩] ∧
    Pt.mk 1 0 ≠ Pt.mk 2 0 := by
  constructor
  · decide
  · decide

/-! ## C6, C7: thin/thick segmentation -/

/-- `IslandPartType` (UniformSupportIsland.cpp:1449). -/
inductive IslandPartType
  | thin
  | middle
  | thick
deriving DecidableEq, Repr

/-- Observable data of a `Position` stored in an `IslandPartChange`: the
neighbor it lies on (by identifier) and `Position::calc_distance`. -/
structure ChangePos where
  nid : Nat
  dist : Int
deriving DecidableEq, Repr

/-- `IslandPartChange` (UniformSupportIsland.cpp:1452-1458). -/
structure IslandPartChange where
  position : ChangePos
  part_index : Nat
deriving DecidableEq, Repr

instance : Inhabited IslandPartChange := ⟨⟨⟨0, 0⟩, 0⟩⟩

/-- `IslandPart` (UniformSupportIsland.cpp:1464-1477). -/
structure IslandPart where
  type : IslandPartType
  changes : List IslandPartChange
  sum_lengths : Int
deriving DecidableEq, Repr

instance : Inhabited IslandPart := ⟨⟨.thin, [], 0⟩⟩

/-- In-place update of one element, as the C++ mutates
`island_parts[part_index]`. -/
def update_part (parts : List IslandPart) (i : Nat)
    (f : IslandPart → IslandPart) : List IslandPart :=
  parts.set i (f (parts.getD i default))

/-- `get_position_with_width` and `ends_in_distanace` data for a crossing of
a given width limit on a neighbor edge (both live in `VoronoiGraphUtils`,
outside this translation unit; modelled from the spec): the crossing
position's distance from the edge source, whether it lies within
`min_part_length` of a contour endpoint, and the same for the twin position
`(twin, 1 - ratio)`. -/
structure CrossInfo where
  dist : Int
  near : Bool
  twinDist : Int
  twinNear : Bool
deriving DecidableEq, Repr

/-- A neighbor edge as read by `detect_interface`: identity, twin identity,
width annotations, length, and crossing data per width limit. -/
structure NeighborW where
  id : Nat
  twinId : Nat
  min_width : Int
  max_width : Int
  length : Int
  crossAt : Int → CrossInfo

/-- `add_part` (UniformSupportIsland.cpp:1507-1548): split the current part
at the width crossing, unless the crossing is suppressed for lying within
`min_part_length` of a contour endpoint; when only the initial part exists
and the twin position is also near the contour, the initial part is retyped
instead. -/
def add_part (island_parts : List IslandPart) (part_index : Nat)
    (to_type : IslandPartType) (n : NeighborW) (limit : Int) :
    List IslandPart × Nat :=
  if (n.crossAt limit).near then (island_parts, part_index)
  else if island_parts.length = 1 ∧ (n.crossAt limit).twinNear then
    match island_parts with
    | p :: rest => ({ p with type := to_type } :: rest, part_index)
    | [] => (island_parts, part_index)
  else
    (update_part island_parts part_index (fun p =>
      { p with
        changes := p.changes ++ [⟨⟨n.id, (n.crossAt limit).dist⟩, island_parts.length⟩]
        sum_lengths := p.sum_lengths + (n.crossAt limit).dist }) ++
      [⟨to_type, [⟨⟨n.twinId, (n.crossAt limit).twinDist⟩, part_index⟩],
        (n.crossAt limit).twinDist⟩],
     island_parts.length)

/-- `detect_interface` (UniformSupportIsland.cpp:1559-1593): hysteresis
classification of one neighbor edge against `thick_min_width` and
`thin_max_width`, splitting parts at the crossed limits; an edge that crosses
no limit only accumulates its length into the current part. -/
def detect_interface (island_parts : List IslandPart) (part_index : Nat)
    (n : NeighborW) (cfg : SampleConfig) : List IslandPart × Nat :=
  match (island_parts.getD part_index default).type with
  | .thin =>
    if n.max_width < cfg.thick_min_width then
      (update_part island_parts part_index (fun p =>
        { p with sum_lengths := p.sum_lengths + n.length }), part_index)
    else if n.max_width < cfg.thin_max_width then
      add_part island_parts part_index .middle n cfg.thick_min_width
    else
      add_part
        (add_part island_parts part_index .middle n cfg.thick_min_width).1
        (add_part island_parts part_index .middle n cfg.thick_min_width).2
        .thick n cfg.thin_max_width
  | .middle =>
    if n.min_width < cfg.thick_min_width then
      add_part island_parts part_index .thin n cfg.thick_min_width
    else if n.max_width > cfg.thin_max_width then
      add_part island_parts part_index .thick n cfg.thin_max_width
    else
      (update_part island_parts part_index (fun p =>
        { p with sum_lengths := p.sum_lengths + n.length }), part_index)
  | .thick =>
    if n.max_width > cfg.thin_max_width then
      (update_part island_parts part_index (fun p =>
        { p with sum_lengths := p.sum_lengths + n.length }), part_index)
    else if n.min_width > cfg.thick_min_width then
      add_part island_parts part_index .middle n cfg.thin_max_width
    else
      add_part
        (add_part island_parts part_index .middle n cfg.thin_max_width).1
        (add_part island_parts part_index .middle n cfg.thin_max_width).2
        .thin n cfg.thick_min_width

/-- The classification of the amended claim C6, written from its words: the
sequence of part types created along an edge entered in state `t`, with
hysteresis thresholds `mn = thick_min_width` and `mx = thin_max_width`. -/
def interface_transitions (t : IslandPartType) (minw maxw mn mx : Int) :
    List IslandPartType :=
  match t with
  | .thin =>
    if maxw < mn then [] else if maxw < mx then [.middle] else [.middle, .thick]
  | .middle =>
    if minw < mn then [.thin] else if maxw > mx then [.thick] else []
  | .thick =>
    if maxw > mx then [] else if minw > mn then [.middle] else [.middle, .thin]

theorem update_part_map_type (parts : List IslandPart) (i : Nat)
    (f : IslandPart → IslandPart) (hf : ∀ p, (f p).type = p.type) :
    (update_part parts i f).map (·.type) = parts.map (·.type) := by
  induction parts generalizing i with
  | nil => rfl
  | cons p rest ih =>
    match i with
    | 0 =>
      simp only [update_part, List.getD_cons_zero, List.set_cons_zero,
        List.map_cons]
      rw [hf]
    | j + 1 =>
      simp only [update_part, List.getD_cons_succ, List.set_cons_succ,
        List.map_cons]
      rw [← ih j]
      rfl

theorem accum_map_type (parts : List IslandPart) (pi : Nat) (len : Int) :
    (update_part parts pi (fun p =>
      { p with sum_lengths := p.sum_lengths + len })).map (·.type) =
      parts.map (·.type) :=
  update_part_map_type parts pi _ (fun p => rfl)

theorem split_update_map_type (parts : List IslandPart) (pi : Nat)
    (c : IslandPartChange) (d : Int) :
    (update_part parts pi (fun p =>
      { p with changes := p.changes ++ [c],
               sum_lengths := p.sum_lengths + d })).map (·.type) =
      parts.map (·.type) :=
  update_part_map_type parts pi _ (fun p => rfl)

theorem add_part_map_type (parts : List IslandPart) (pi : Nat)
    (ty : IslandPartType) (n : NeighborW) (limit : Int)
    (hnear : (n.crossAt limit).near = false)
    (htwin : (n.crossAt limit).twinNear = false) :
    (add_part parts pi ty n limit).1.map (·.type) =
      parts.map (·.type) ++ [ty] ∧
    (add_part parts pi ty n limit).2 = parts.length := by
  unfold add_part
  rw [hnear, htwin]
  simp only [Bool.false_eq_true, if_false, and_false]
  constructor
  · rw [List.map_append, split_update_map_type]
    rfl
  · trivial

/-- **C6** (amended): every edge is classified with hysteresis — an edge seen
from a thin part stays thin while `max_width < thick_min_width`, crosses into
a middle part once `max_width ≥ thick_min_width` and further into a thick
part once `max_width ≥ thin_max_width`; from a middle part it crosses to thin
when `min_width < thick_min_width` and to thick when
`max_width > thin_max_width`; from a thick part it stays thick while
`max_width > thin_max_width`, crosses into a middle part once
`max_width ≤ thin_max_width` and further into a thin part once
`min_width ≤ thick_min_width`.  A threshold crossing whose position lies
within `min_part_length` of a contour endpoint is suppressed and creates no
new part. -/
theorem C6_hysteresis_classification (parts : List IslandPart) (pi : Nat)
    (n : NeighborW) (cfg : SampleConfig)
    (hnear1 : (n.crossAt cfg.thick_min_width).near = false)
    (hnear2 : (n.crossAt cfg.thin_max_width).near = false)
    (htwin1 : (n.crossAt cfg.thick_min_width).twinNear = false)
    (htwin2 : (n.crossAt cfg.thin_max_width).twinNear = false) :
    ((detect_interface parts pi n cfg).1.map (·.type) =
      parts.map (·.type) ++
        interface_transitions (parts.getD pi default).type
          n.min_width n.max_width cfg.thick_min_width cfg.thin_max_width) ∧
    (∀ (parts2 : List IslandPart) (pi2 : Nat) (ty : IslandPartType)
        (limit : Int), (n.crossAt limit).near = true →
      add_part parts2 pi2 ty n limit = (parts2, pi2)) := by
  constructor
  · unfold detect_interface interface_transitions
    rcases ht : (parts.getD pi default).type with _ | _ | _ <;> dsimp only
    · -- thin
      split_ifs with h1 h2
      · simpa using accum_map_type parts pi n.length
      · simpa using (add_part_map_type parts pi .middle n cfg.thick_min_width
          hnear1 htwin1).1
      · obtain ⟨hm1, hi1⟩ := add_part_map_type parts pi .middle n
          cfg.thick_min_width hnear1 htwin1
        obtain ⟨hm2, _⟩ := add_part_map_type
          (add_part parts pi .middle n cfg.thick_min_width).1
          (add_part parts pi .middle n cfg.thick_min_width).2 .thick n
          cfg.thin_max_width hnear2 htwin2
        rw [hm2, hm1, List.append_assoc]
        rfl
    · -- middle
      split_ifs with h1 h2
      · simpa using (add_part_map_type parts pi .thin n cfg.thick_min_width
          hnear1 htwin1).1
      · simpa using (add_part_map_type parts pi .thick n cfg.thin_max_width
          hnear2 htwin2).1
      · simpa using accum_map_type parts pi n.length
    · -- thick
      split_ifs with h1 h2
      · simpa using accum_map_type parts pi n.length
      · simpa using (add_part_map_type parts pi .middle n cfg.thin_max_width
          hnear2 htwin2).1
      · obtain ⟨hm1, _⟩ := add_part_map_type parts pi .middle n
          cfg.thin_max_width hnear2 htwin2
        obtain ⟨hm2, _⟩ := add_part_map_type
          (add_part parts pi .middle n cfg.thin_max_width).1
          (add_part parts pi .middle n cfg.thin_max_width).2 .thin n
          cfg.thick_min_width hnear1 htwin1
        rw [hm2, hm1, List.append_assoc]
        rfl
  · intro parts2 pi2 ty limit hnear
    unfold add_part
    rw [hnear]
    simp

/-- Config for the segmentation scenarios: `thick_min_width = 10`,
`thin_max_width = 20`, other options irrelevant to `detect_interface`. -/
def seg_config : SampleConfig :=
  { dart_config with thick_min_width := 10, thin_max_width := 20 }

/-- An edge of minimal width 5 and maximal width exactly `thin_max_width`,
with both crossings away from the contour. -/
def seg_edge : NeighborW :=
  { id := 0
    twinId := 1
    min_width := 5
    max_width := 20
    length := 10
    crossAt := fun limit =>
      if limit = 10 then ⟨3, false, 7, false⟩ else ⟨6, false, 4, false⟩ }

/-- Witness for `C6_hysteresis_classification` at the concrete edge. -/
theorem C6_hysteresis_classification_witness :
    ((detect_interface [⟨.thin, [], 0⟩] 0 seg_edge seg_config).1.map (·.type) =
      [IslandPart.mk .thin [] 0].map (·.type) ++
        interface_transitions ([IslandPart.mk .thin [] 0].getD 0 default).type
          seg_edge.min_width seg_edge.max_width
          seg_config.thick_min_width seg_config.thin_max_width) ∧
    (∀ (parts2 : List IslandPart) (pi2 : Nat) (ty : IslandPartType)
        (limit : Int), (seg_edge.crossAt limit).near = true →
      add_part parts2 pi2 ty seg_edge limit = (parts2, pi2)) :=
  C6_hysteresis_classification [⟨.thin, [], 0⟩] 0 seg_edge seg_config
    (by decide) (by decide) (by decide) (by decide)

/-- **C6** (counterexample): an edge entered from a thin part whose
`max_width` equals `thin_max_width` exactly (20, not above it) ends in a
newly created *thick* part, while the claim's classification ("thick while
max_width is above thin_max_width, middle in between") puts every edge with
`max_width ≤ thin_max_width` in a middle part at most. -/
theorem C6_equal_width_becomes_thick :
    (detect_interface [⟨.thin, [], 0⟩] 0 seg_edge seg_config).1 =
      [⟨.thin, [⟨⟨0, 3⟩, 1⟩], 3⟩,
       ⟨.middle, [⟨⟨1, 7⟩, 0⟩, ⟨⟨0, 6⟩, 2⟩], 13⟩,
       ⟨.thick, [⟨⟨1, 4⟩, 1⟩], 4⟩] ∧
    seg_edge.max_width = seg_config.thin_max_width ∧
    ¬ seg_edge.max_width > seg_config.thin_max_width := by
  refine ⟨by decide, by decide, by decide⟩

/-- `merge_island_parts` (UniformSupportIsland.cpp:1602-1635): drop the
reciprocal changes between the two parts, move the removed part's remaining
changes into the kept part, erase the removed part, and renumber part indices
in every change. -/
def merge_island_parts (island_parts : List IslandPart)
    (index remove_index : Nat) : List IslandPart :=
  ((update_part island_parts index fun p =>
      { p with
        changes :=
          (p.changes.filter fun c => c.part_index != remove_index) ++
          ((island_parts.getD remove_index default).changes.filter
            fun c => c.part_index != index) }).eraseIdx remove_index).map
    fun p =>
      { p with
        changes := p.changes.map fun c =>
          if c.part_index = remove_index then { c with part_index := index }
          else if c.part_index > remove_index then
            { c with part_index := c.part_index - 1 }
          else c }

/-- One `std::max_element` comparison step on `sum_lengths` of the change's
target part (UniformSupportIsland.cpp:1678-1681): a strictly greater
candidate replaces the current best, so ties keep the earlier change. -/
def pick_bigger (island_parts : List IslandPart)
    (best c : IslandPartChange) : IslandPartChange :=
  if (island_parts.getD best.part_index default).sum_lengths <
      (island_parts.getD c.part_index default).sum_lengths then c else best

/-- `std::max_element` over a change list. -/
def max_change (island_parts : List IslandPart)
    (changes : List IslandPartChange) : IslandPartChange :=
  changes.foldl (pick_bigger island_parts) (changes.headD default)

/-- `sum_lengths` of the part a change leads to. -/
def change_weight (island_parts : List IslandPart)
    (c : IslandPartChange) : Int :=
  (island_parts.getD c.part_index default).sum_lengths

/-- The loop of `merge_middle_parts_into_biggest_neighbor`
(UniformSupportIsland.cpp:1669-1695); the C++ `for` with `--index` after a
merge revisits the same index, bounded here by `fuel`. -/
def merge_middle_go : Nat → List IslandPart → Nat → List IslandPart
  | 0, parts, _ => parts
  | fuel + 1, parts, index =>
    if index < parts.length then
      if (parts.getD index default).type = .middle then
        match (parts.getD index default).changes with
        | [] => merge_middle_go fuel parts (index + 1)
        | c0 :: cs =>
          merge_middle_go fuel
            (merge_island_parts
              (update_part parts index fun q =>
                { q with type := (parts.getD
                    (max_change parts (c0 :: cs)).part_index default).type })
              (min index (max_change parts (c0 :: cs)).part_index)
              (max index (max_change parts (c0 :: cs)).part_index))
            index
      else merge_middle_go fuel parts (index + 1)
    else parts

/-- `merge_middle_parts_into_biggest_neighbor`: each iteration either
advances the index or removes one part, so `(n+1)^2` fuel suffices. -/
def merge_middle_parts_into_biggest_neighbor
    (island_parts : List IslandPart) : List IslandPart :=
  merge_middle_go ((island_parts.length + 1) * (island_parts.length + 1))
    island_parts 0

theorem foldl_pick_weight (parts : List IslandPart) :
    ∀ (l : List IslandPartChange) (b : IslandPartChange),
      change_weight parts b ≤
        change_weight parts (l.foldl (pick_bigger parts) b) ∧
      ∀ c ∈ l, change_weight parts c ≤
        change_weight parts (l.foldl (pick_bigger parts) b) := by
  intro l
  induction l with
  | nil =>
    intro b
    exact ⟨le_refl _, by simp⟩
  | cons c rest ih =>
    intro b
    have hstep : change_weight parts b ≤ change_weight parts (pick_bigger parts b c) ∧
        change_weight parts c ≤ change_weight parts (pick_bigger parts b c) := by
      unfold pick_bigger change_weight
      split_ifs with h <;> omega
    obtain ⟨ih1, ih2⟩ := ih (pick_bigger parts b c)
    refine ⟨le_trans hstep.1 ih1, ?_⟩
    intro d hd
    rcases List.mem_cons.mp hd with rfl | hd'
    · exact le_trans hstep.2 ih1
    · exact ih2 d hd'

theorem foldl_pick_first (parts : List IslandPart) :
    ∀ (l : List IslandPartChange) (b : IslandPartChange),
      l.foldl (pick_bigger parts) b = b ∨
      (∃ k, k < l.length ∧
        l.get? k = some (l.foldl (pick_bigger parts) b) ∧
        change_weight parts b <
          change_weight parts (l.foldl (pick_bigger parts) b) ∧
        ∀ j, j < k → ∀ cj, l.get? j = some cj →
          change_weight parts cj <
            change_weight parts (l.foldl (pick_bigger parts) b)) := by
  intro l
  induction l with
  | nil =>
    intro b
    exact Or.inl rfl
  | cons c rest ih =>
    intro b
    have hfold : (c :: rest).foldl (pick_bigger parts) b =
        rest.foldl (pick_bigger parts) (pick_bigger parts b c) := rfl
    by_cases hbc : change_weight parts b < change_weight parts c
    · have hpick : pick_bigger parts b c = c := by
        unfold pick_bigger
        unfold change_weight at hbc
        rw [if_pos hbc]
      rcases ih (pick_bigger parts b c) with heq | ⟨k, hk, hget, hlt, hpre⟩
      · refine Or.inr ⟨0, by simp, ?_, ?_, ?_⟩
        · rw [hfold, heq, hpick]
          rfl
        · rw [hfold, heq, hpick]
          exact hbc
        · intro j hj
          omega
      · refine Or.inr ⟨k + 1, by simp only [List.length_cons]; omega, ?_, ?_, ?_⟩
        · rw [hfold]
          exact hget
        · rw [hfold]
          have hw : change_weight parts c = change_weight parts (pick_bigger parts b c) := by
            rw [hpick]
          calc change_weight parts b < change_weight parts c := hbc
            _ = change_weight parts (pick_bigger parts b c) := hw
            _ < _ := hlt
        · intro j hj cj hcj
          rw [hfold]
          match j with
          | 0 =>
            simp only [List.get?_cons_zero, Option.some.injEq] at hcj
            subst hcj
            have hw : change_weight parts c = change_weight parts (pick_bigger parts b c) := by
              rw [hpick]
            calc change_weight parts c = change_weight parts (pick_bigger parts b c) := hw
              _ < _ := hlt
          | j' + 1 =>
            exact hpre j' (by omega) cj hcj
    · have hpick : pick_bigger parts b c = b := by
        unfold pick_bigger
        unfold change_weight at hbc
        rw [if_neg hbc]
      rcases ih (pick_bigger parts b c) with heq | ⟨k, hk, hget, hlt, hpre⟩
      · refine Or.inl ?_
        rw [hfold, heq, hpick]
      · refine Or.inr ⟨k + 1, by simp only [List.length_cons]; omega, ?_, ?_, ?_⟩
        · rw [hfold]
          exact hget
        · rw [hfold]
          have hw : change_weight parts (pick_bigger parts b c) = change_weight parts b := by
            rw [hpick]
          omega
        · intro j hj cj hcj
          rw [hfold]
          match j with
          | 0 =>
            simp only [List.get?_cons_zero, Option.some.injEq] at hcj
            subst hcj
            have hw : change_weight parts (pick_bigger parts b c) = change_weight parts b := by
              rw [hpick]
            omega
          | j' + 1 =>
            exact hpre j' (by omega) cj hcj

/-- **C7** (amended): in segmentation post-processing every middle part is
merged into a neighboring part of maximal `sum_lengths`, the merged part
adopting that neighbor's type; when several neighbors tie on `sum_lengths`,
the winner is the *first change in the middle part's change list* attaining
the maximum (`std::max_element` keeps the earliest maximal element), not the
neighbor with the lower part index. -/
theorem C7_merge_middle_into_first_biggest (island_parts : List IslandPart)
    (c0 : IslandPartChange) (cs : List IslandPartChange) :
    (∀ c ∈ c0 :: cs, change_weight island_parts c ≤
        change_weight island_parts (max_change island_parts (c0 :: cs))) ∧
    (∃ k, k < (c0 :: cs).length ∧
      (c0 :: cs).get? k = some (max_change island_parts (c0 :: cs)) ∧
      ∀ j, j < k → ∀ cj, (c0 :: cs).get? j = some cj →
        change_weight island_parts cj <
          change_weight island_parts (max_change island_parts (c0 :: cs))) ∧
    (∀ fuel index, index < island_parts.length →
      (island_parts.getD index default).type = .middle →
      (island_parts.getD index default).changes = c0 :: cs →
      merge_middle_go (fuel + 1) island_parts index =
        merge_middle_go fuel
          (merge_island_parts
            (update_part island_parts index fun q =>
              { q with type := (island_parts.getD
                  (max_change island_parts (c0 :: cs)).part_index default).type })
            (min index (max_change island_parts (c0 :: cs)).part_index)
            (max index (max_change island_parts (c0 :: cs)).part_index))
          index) := by
  have hmc : max_change island_parts (c0 :: cs) =
      (c0 :: cs).foldl (pick_bigger island_parts) c0 := rfl
  refine ⟨?_, ?_, ?_⟩
  · exact (foldl_pick_weight island_parts (c0 :: cs) _).2
  · rcases foldl_pick_first island_parts (c0 :: cs) c0 with heq | ⟨k, hk, hget, _, hpre⟩
    · refine ⟨0, by simp, ?_, ?_⟩
      · rw [hmc, heq]
        simp
      · intro j hj
        omega
    · refine ⟨k, hk, ?_, ?_⟩
      · rw [hmc]
        exact hget
      · intro j hj cj hcj
        rw [hmc]
        exact hpre j hj cj hcj
  · intro fuel index hidx htype hch
    simp only [merge_middle_go]
    rw [if_pos hidx, if_pos htype, hch]

/-- Segmentation state with one middle part (index 0) whose two neighbors,
parts 2 (thick, listed first in the change list) and 1 (thin), tie on
`sum_lengths = 100`. -/
def c7_parts : List IslandPart :=
  [⟨.middle, [⟨⟨0, 0⟩, 2⟩, ⟨⟨1, 0⟩, 1⟩], 5⟩,
   ⟨.thin, [⟨⟨2, 0⟩, 0⟩], 100⟩,
   ⟨.thick, [⟨⟨3, 0⟩, 0⟩], 100⟩]

/-- Witness for `C7_merge_middle_into_first_biggest` at the concrete
segmentation state `c7_parts`. -/
theorem C7_merge_middle_into_first_biggest_witness :
    change_weight c7_parts ⟨⟨1, 0⟩, 1⟩ ≤
      change_weight c7_parts (max_change c7_parts [⟨⟨0, 0⟩, 2⟩, ⟨⟨1, 0⟩, 1⟩]) ∧
    merge_middle_go 1 c7_parts 0 =
      merge_middle_go 0
        (merge_island_parts
          (update_part c7_parts 0 fun q =>
            { q with type := (c7_parts.getD
                (max_change c7_parts [⟨⟨0, 0⟩, 2⟩, ⟨⟨1, 0⟩, 1⟩]).part_index
                default).type })
          (min 0 (max_change c7_parts [⟨⟨0, 0⟩, 2⟩, ⟨⟨1, 0⟩, 1⟩]).part_index)
          (max 0 (max_change c7_parts [⟨⟨0, 0⟩, 2⟩, ⟨⟨1, 0⟩, 1⟩]).part_index))
        0 :=
  ⟨(C7_merge_middle_into_first_biggest c7_parts ⟨⟨0, 0⟩, 2⟩ [⟨⟨1, 0⟩, 1⟩]).1
      ⟨⟨1, 0⟩, 1⟩ (by decide),
   (C7_merge_middle_into_first_biggest c7_parts ⟨⟨0, 0⟩, 2⟩ [⟨⟨1, 0⟩, 1⟩]).2.2
      0 0 (by decide) (by decide) (by decide)⟩

/-- **C7** (counterexample to the tie-break): on `c7_parts` the two neighbors
of the middle part tie on `sum_lengths`, and the merge goes into part 2
(thick, the first change in the list), not the lower-index part 1 (thin): the
merged part comes out thick. -/
theorem C7_tie_breaks_by_change_order_not_index :
    merge_middle_parts_into_biggest_neighbor c7_parts =
      [⟨.thick, [⟨⟨1, 0⟩, 1⟩], 5⟩, ⟨.thin, [⟨⟨2, 0⟩, 0⟩], 100⟩] ∧
    change_weight c7_parts ⟨⟨0, 0⟩, 2⟩ = change_weight c7_parts ⟨⟨1, 0⟩, 1⟩ ∧
    IslandPartType.thick ≠ IslandPartType.thin := by
  refine ⟨by decide, by decide, by decide⟩

/-! ## C9: outline sampling of a run -/

/-- The `while (last_support + line_length > sample_distance)` loop of
`add_sample` (UniformSupportIsland.cpp:1253-1264), collecting the offsets
`sample_distance - last_support` emitted on one line of length `L`.  The C++
loop needs no fuel; here `L.toNat + 1` iterations always suffice (proved in
`add_sample_loop_spec`). -/
def add_sample_loop (D L : Int) : Nat → Int → List Int × Int
  | 0, ls => ([], ls)
  | f + 1, ls =>
    if ls + L > D then
      ((D - ls) :: (add_sample_loop D L f (ls - D)).1,
        (add_sample_loop D L f (ls - D)).2)
    else ([], ls)

/-- `add_sample`: emissions `(line index, offset from line start)` on one
line, and the updated `last_support` (`last_support += line_length`). -/
def add_sample (D : Int) (index : Nat) (L ls : Int) :
    List (Nat × Int) × Int :=
  ((add_sample_loop D L (L.toNat + 1) ls).1.map fun o => (index, o),
   (add_sample_loop D L (L.toNat + 1) ls).2 + L)

/-- The per-line loop of `add_lines_samples`/`add_circle_sample`
(UniformSupportIsland.cpp:1280-1281, 1324-1326) over the run's line
lengths. -/
def add_lines_go (D : Int) : List Int → Nat → Int → List (Nat × Int)
  | [], _, _ => []
  | L :: Ls, index, ls =>
    (add_sample D index L ls).1 ++
      add_lines_go D Ls (index + 1) (add_sample D index L ls).2

/-- Sampling of one run (a line sequence or a whole ring): initial
`last_support = min(sum_lengths, sample_distance) / 2`
(UniformSupportIsland.cpp:1279, 1323). -/
def sample_run (D : Int) (lens : List Int) : List (Nat × Int) :=
  add_lines_go D lens 0 ((min lens.sum D).tdiv 2)

/-- Arc-length distances of the run's samples from the run's start. -/
def run_positions (D : Int) (lens : List Int) : List Int :=
  (sample_run D lens).map fun io => (lens.take io.1).sum + io.2

theorem add_sample_loop_spec (D L : Int) (hD : 0 < D) (hL : 0 ≤ L) :
    ∀ (f : Nat) (ls : Int), ls + L - D ≤ (f : Int) * D →
      ∃ k : Int, 0 ≤ k ∧
        (add_sample_loop D L f ls).2 = ls - k * D ∧
        (add_sample_loop D L f ls).2 + L ≤ D ∧
        (∀ m : Int, 1 ≤ m → (m ≤ k ↔ m * D - ls < L)) ∧
        (∀ d : Int, d ∈ (add_sample_loop D L f ls).1 ↔
          ∃ m : Int, 1 ≤ m ∧ m ≤ k ∧ d = m * D - ls) := by
  intro f
  induction f with
  | zero =>
    intro ls hf
    have h0 : ((0 : Nat) : Int) * D = 0 := by simp
    rw [h0] at hf
    refine ⟨0, le_refl 0, by simp [add_sample_loop], ?_, ?_, ?_⟩
    · simp only [add_sample_loop]
      omega
    · intro m hm
      constructor
      · intro hmk
        omega
      · intro hlt
        exfalso
        have h1 : 1 * D ≤ m * D := mul_le_mul_of_nonneg_right hm (le_of_lt hD)
        rw [one_mul] at h1
        omega
    · intro d
      constructor
      · intro hd
        simp [add_sample_loop] at hd
      · rintro ⟨m, hm1, hmk, _⟩
        omega
  | succ f ih =>
    intro ls hf
    have hexpand : ((f + 1 : Nat) : Int) * D = (f : Int) * D + D := by
      push_cast
      ring
    rw [hexpand] at hf
    by_cases hcond : ls + L > D
    · have hf2 : (ls - D) + L - D ≤ (f : Int) * D := by omega
      obtain ⟨k, hk0, h2, h3, hchar, hmem⟩ := ih (ls - D) hf2
      refine ⟨k + 1, by omega, ?_, ?_, ?_, ?_⟩
      · simp only [add_sample_loop, if_pos hcond]
        rw [h2]
        ring
      · simp only [add_sample_loop, if_pos hcond]
        exact h3
      · intro m hm
        by_cases hm1 : m = 1
        · subst hm1
          simp only [one_mul]
          constructor
          · intro _
            omega
          · intro _
            omega
        · have hm2 : 2 ≤ m := by omega
          have hc := hchar (m - 1) (by omega)
          have hr : (m - 1) * D - (ls - D) = m * D - ls := by ring
          rw [hr] at hc
          constructor
          · intro h
            exact hc.mp (by omega)
          · intro h
            have := hc.mpr h
            omega
      · intro d
        simp only [add_sample_loop, if_pos hcond, List.mem_cons]
        constructor
        · rintro (rfl | hd)
          · exact ⟨1, le_refl 1, by omega, by ring⟩
          · obtain ⟨m, hm1, hmk, hde⟩ := (hmem d).mp hd
            refine ⟨m + 1, by omega, by omega, ?_⟩
            rw [hde]
            ring
        · rintro ⟨m, hm1, hmk, rfl⟩
          by_cases hm1' : m = 1
          · subst hm1'
            left
            ring
          · right
            apply (hmem _).mpr
            refine ⟨m - 1, by omega, by omega, by ring⟩
    · refine ⟨0, le_refl 0, by simp [add_sample_loop, hcond], ?_, ?_, ?_⟩
      · simp only [add_sample_loop, if_neg hcond]
        omega
      · intro m hm
        constructor
        · intro hmk
          omega
        · intro hlt
          exfalso
          have h1 : 1 * D ≤ m * D := mul_le_mul_of_nonneg_right hm (le_of_lt hD)
          rw [one_mul] at h1
          omega
      · intro d
        constructor
        · intro hd
          simp [add_sample_loop, hcond] at hd
        · rintro ⟨m, hm1, hmk, _⟩
          omega

theorem add_lines_go_index_ge (D : Int) :
    ∀ (lens : List Int) (i0 : Nat) (ls : Int) (io : Nat × Int),
      io ∈ add_lines_go D lens i0 ls → i0 ≤ io.1 := by
  intro lens
  induction lens with
  | nil =>
    intro i0 ls io h
    simp [add_lines_go] at h
  | cons L Ls ih =>
    intro i0 ls io h
    simp only [add_lines_go, List.mem_append] at h
    rcases h with h | h
    · unfold add_sample at h
      simp only [List.mem_map] at h
      obtain ⟨o, _, rfl⟩ := h
      exact le_refl i0
    · exact le_trans (by omega) (ih (i0 + 1) _ io h)

theorem add_lines_go_mem (D : Int) (hD : 0 < D) :
    ∀ (lens : List Int) (i0 : Nat) (ls : Int),
      (∀ L ∈ lens, 0 ≤ L) → ls ≤ D →
      ∀ d : Int,
        (d ∈ (add_lines_go D lens i0 ls).map
            fun io => (lens.take (io.1 - i0)).sum + io.2) ↔
        (∃ m : Int, 1 ≤ m ∧ d = m * D - ls ∧ d < lens.sum) := by
  intro lens
  induction lens with
  | nil =>
    intro i0 ls _ hls d
    constructor
    · intro h
      simp [add_lines_go] at h
    · rintro ⟨m, hm1, rfl, hlt⟩
      have h1 : 1 * D ≤ m * D := mul_le_mul_of_nonneg_right hm1 (le_of_lt hD)
      rw [one_mul] at h1
      simp only [List.sum_nil] at hlt
      omega
  | cons L Ls ih =>
    intro i0 ls hpos hls d
    have hL : 0 ≤ L := hpos L (by simp)
    have hpos' : ∀ L' ∈ Ls, 0 ≤ L' := fun L' h => hpos L' (by simp [h])
    have hLsum : 0 ≤ Ls.sum := List.sum_nonneg hpos'
    have hfuel : ls + L - D ≤ ((L.toNat + 1 : Nat) : Int) * D := by
      have he : ((L.toNat + 1 : Nat) : Int) = L + 1 := by
        push_cast
        rw [Int.toNat_of_nonneg hL]
      rw [he]
      have h2 : (L + 1) * 1 ≤ (L + 1) * D := by
        apply mul_le_mul_of_nonneg_left (by omega) (by omega)
      rw [mul_one] at h2
      omega
    obtain ⟨k, hk0, hend, hexit, hchar, hmem⟩ :=
      add_sample_loop_spec D L hD hL (L.toNat + 1) ls hfuel
    have hls2 : (add_sample D i0 L ls).2 = ls - k * D + L := by
      unfold add_sample
      rw [hend]
    have hls2le : (add_sample D i0 L ls).2 ≤ D := by
      unfold add_sample
      omega
    constructor
    · intro hd
      simp only [add_lines_go, List.map_append, List.mem_append] at hd
      rcases hd with hd | hd
      · simp only [List.mem_map] at hd
        obtain ⟨io, hio, rfl⟩ := hd
        unfold add_sample at hio
        simp only [List.mem_map] at hio
        obtain ⟨o, ho, rfl⟩ := hio
        obtain ⟨m, hm1, hmk, rfl⟩ := (hmem o).mp ho
        refine ⟨m, hm1, ?_, ?_⟩
        · simp
        · have h1 := (hchar m hm1).mp hmk
          simp only [Nat.sub_self, List.take_zero, List.sum_nil, List.sum_cons,
            zero_add]
          omega
      · simp only [List.mem_map] at hd
        obtain ⟨io, hio, rfl⟩ := hd
        have hge := add_lines_go_index_ge D Ls (i0 + 1) _ io hio
        have htake : ((L :: Ls).take (io.1 - i0)).sum =
            L + (Ls.take (io.1 - (i0 + 1))).sum := by
          have h1 : io.1 - i0 = (io.1 - (i0 + 1)) + 1 := by omega
          rw [h1, List.take_succ_cons, List.sum_cons]
        have hmem2 : ((Ls.take (io.1 - (i0 + 1))).sum + io.2) ∈
            (add_lines_go D Ls (i0 + 1) (add_sample D i0 L ls).2).map
              (fun io => (Ls.take (io.1 - (i0 + 1))).sum + io.2) :=
          List.mem_map_of_mem _ hio
        obtain ⟨m2, hm12, hde2, hlt2⟩ :=
          (ih (i0 + 1) (add_sample D i0 L ls).2 hpos' hls2le _).mp hmem2
        rw [hls2] at hde2
        refine ⟨m2 + k, by omega, ?_, ?_⟩
        · have hexp : (m2 + k) * D = m2 * D + k * D := add_mul m2 k D
          rw [htake]
          omega
        · rw [htake]
          simp only [List.sum_cons]
          omega
    · rintro ⟨m, hm1, rfl, hlt⟩
      simp only [add_lines_go, List.map_append, List.mem_append]
      by_cases hmk : m ≤ k
      · left
        have hoin : (m * D - ls) ∈ (add_sample_loop D L (L.toNat + 1) ls).1 :=
          (hmem _).mpr ⟨m, hm1, hmk, rfl⟩
        simp only [List.mem_map]
        refine ⟨(i0, m * D - ls), ?_, ?_⟩
        · unfold add_sample
          simp only [List.mem_map]
          exact ⟨m * D - ls, hoin, rfl⟩
        · simp
      · right
        have hm12 : 1 ≤ m - k := by omega
        have hd2 : (m - k) * D - (add_sample D i0 L ls).2 = m * D - ls - L := by
          rw [hls2]
          ring
        have hlt2 : (m - k) * D - (add_sample D i0 L ls).2 < Ls.sum := by
          rw [hd2]
          simp only [List.sum_cons] at hlt
          omega
        have hmem2 := (ih (i0 + 1) (add_sample D i0 L ls).2 hpos' hls2le
          ((m - k) * D - (add_sample D i0 L ls).2)).mpr ⟨m - k, hm12, rfl, hlt2⟩
        simp only [List.mem_map] at hmem2
        obtain ⟨io, hio, hval⟩ := hmem2
        have hge := add_lines_go_index_ge D Ls (i0 + 1) _ io hio
        simp only [List.mem_map]
        refine ⟨io, hio, ?_⟩
        have htake : ((L :: Ls).take (io.1 - i0)).sum =
            L + (Ls.take (io.1 - (i0 + 1))).sum := by
          have h1 : io.1 - i0 = (io.1 - (i0 + 1)) + 1 := by omega
          rw [h1, List.take_succ_cons, List.sum_cons]
        rw [htake]
        rw [hd2] at hval
        omega

/-- **C9** (amended): for every run of outline lines sampled at spacing `D =
thick_outline_max_distance` (line sequence or whole ring alike), the arc
distances of the emitted points from the run's start are exactly the values
`m * D - H` for integers `m ≥ 1` that are less than the run's length, where
`H = min(run_length, D) / 2` is the initial `last_support`.  For a run at
least one spacing long this gives the first point at `D - D/2` from the start
(half-spacing up to rounding) and spacing `D` thereafter; a run of length
`len < D` gets its single point at `D - len/2` — not at half-spacing — and no
point at all when `3·len/2 ≤ D`. -/
theorem C9_outline_run_sampling (D : Int) (hD : 0 < D) (lens : List Int)
    (hpos : ∀ L ∈ lens, 0 ≤ L) (d : Int) :
    d ∈ run_positions D lens ↔
      ∃ m : Int, 1 ≤ m ∧ d = m * D - (min lens.sum D).tdiv 2 ∧
        d < lens.sum := by
  have hsum : 0 ≤ lens.sum := List.sum_nonneg hpos
  have hmin0 : 0 ≤ min lens.sum D := le_min hsum (le_of_lt hD)
  have hH : (min lens.sum D).tdiv 2 ≤ D := by
    have h1 : (min lens.sum D).tdiv 2 ≤ min lens.sum D := by
      rw [Int.tdiv_eq_ediv hmin0 (by omega)]
      exact Int.ediv_le_self 2 hmin0
    have h2 : min lens.sum D ≤ D := min_le_right _ _
    omega
  exact add_lines_go_mem D hD lens 0 ((min lens.sum D).tdiv 2) hpos hH d

/-- Witness for `C9_outline_run_sampling`: a single line of length 12 at
spacing 10 has `H = 5` and exactly one point at distance `10 - 5 = 5`. -/
theorem C9_outline_run_sampling_witness :
    (5 : Int) ∈ run_positions 10 [12] :=
  (C9_outline_run_sampling 10 (by decide) [12] (by decide) 5).mpr
    ⟨1, by decide, by decide, by decide⟩

/-- **C9** (counterexample): a run of length 6 at spacing 10 gets no point at
all (the claim promises a first point at half-spacing for every run,
including runs shorter than one spacing), and a run of length 8 gets its
single point at distance 6 from the run's start, not at half-spacing 5. -/
theorem C9_short_run_points :
    sample_run 10 [6] = [] ∧
    sample_run 10 [8] = [(0, 6)] ∧
    (6 : Int) ≠ 5 := by
  refine ⟨by decide, by decide, by decide⟩

/-! ## C8: thin-part traversal and loop rendezvous -/

/-- Modelled from the spec: one Voronoi half-edge (`VoronoiGraph::Node::
Neighbor`, defined outside the sources at hand).  `twinId` is the opposite
half-edge (`VoronoiGraphUtils::get_twin`), `nodeId` the target node
(`neighbor->node`), `length` the edge length as `coord_t`. -/
structure NeighborT where
  twinId : Nat
  nodeId : Nat
  length : Int
deriving DecidableEq, Repr

/-- Modelled from the spec: the Voronoi skeleton restricted to one thin
part — half-edges by id plus each node's outgoing half-edges in
`node->neighbors` order. -/
structure ThinGraph where
  edges : List NeighborT
  nodeNeighbors : Nat → List Nat

def edgeOf (g : ThinGraph) (i : Nat) : NeighborT := g.edges.getD i ⟨0, 0, 0⟩

/-- A `VoronoiGraph::Position` on a half-edge, stored as the arc distance
`ratio * length` from the edge start (`calc_distance()`), so that
`Position(neighbor, ratio)` with `ratio = support_in / length` is the pair
`(neighbor, support_in)` and `Position{neighbor, 1.}` is
`(neighbor, length)`. -/
structure ThinPosition where
  neighbor : Nat
  dist : Int
deriving DecidableEq, Repr

/-- The `ThinPart` struct (UniformSupportIsland.cpp:530-541): center of the
longest path and the transitions into thick parts. -/
structure ThinPart where
  center : ThinPosition
  ends : List ThinPosition
deriving DecidableEq, Repr

/-- The `lower_bound` end lookup (UniformSupportIsland.cpp:597-600): the part
end lying on the given neighbor, if any. -/
def find_end (ends : List ThinPosition) (e : Nat) : Option ThinPosition :=
  ends.find? fun p => p.neighbor == e

/-- `std::find_if` over the process stack for an entry on the given twin
half-edge (UniformSupportIsland.cpp:633-634). -/
def find_twin (process : List (Int × Nat)) (t : Nat) : Option (Int × Nat) :=
  process.find? fun p => p.2 == t

/-- `process.erase(process_it)`: remove the first stack entry on the given
twin half-edge. -/
def erase_twin : List (Int × Nat) → Nat → List (Int × Nat)
  | [], _ => []
  | p :: ps, t => if p.2 = t then ps else p :: erase_twin ps t

/-- The sampling loop on one edge (UniformSupportIsland.cpp:606-613):
`while (edge_length >= support_in)` emit a `thin_part_change` point at
`Position(neighbor, support_in / length)` and advance `support_in` by the
support distance.  Emitted points are `(type, edge id, arc distance)`.  The
C++ loop needs no fuel; `emit_fuel` iterations suffice whenever the support
distance is at least 1. -/
def emit_go (S : Int) (e : Nat) (len : Int) :
    Nat → Int → List (SPType × Nat × Int) × Int
  | 0, s => ([], s)
  | f + 1, s =>
    if s ≤ len then
      ((SPType.thin_part_change, e, s) :: (emit_go S e len f (s + S)).1,
        (emit_go S e len f (s + S)).2)
    else ([], s)

def emit_fuel (len s : Int) : Nat := (len - s).toNat + 1

/-- `edge_length` of the current neighbor: the end's `calc_distance()` when a
part end lies on it, else the full edge length
(UniformSupportIsland.cpp:604-605). -/
def edge_len (g : ThinGraph) (ends : List ThinPosition) (e : Nat) : Int :=
  match find_end ends e with
  | some p => p.dist
  | none => (edgeOf g e).length

/-- All points emitted on the current edge together with the final
`support_in` before the `-= edge_length` subtraction. -/
def edge_emit (g : ThinGraph) (ends : List ThinPosition) (S s : Int)
    (e : Nat) : List (SPType × Nat × Int) × Int :=
  emit_go S e (edge_len g ends e) (emit_fuel (edge_len g ends e) s) s

/-- The next-neighbor scan (UniformSupportIsland.cpp:648-660): walk the
target node's neighbors skipping the twin; the first becomes the next
cursor, the rest are pushed onto the process stack with the current
`support_in`. -/
def next_scan_go (twin : Nat) (s : Int) :
    List Nat → Option (Int × Nat) → List (Int × Nat) →
    Option (Int × Nat) × List (Int × Nat)
  | [], next, pushed => (next, pushed)
  | n :: ns, next, pushed =>
    if n = twin then next_scan_go twin s ns next pushed
    else
      match next with
      | none => next_scan_go twin s ns (some (s, n)) pushed
      | some nx => next_scan_go twin s ns (some nx) (pushed ++ [(s, n)])

/-- One body iteration of the traversal loop of
`create_supports_for_thin_part` (UniformSupportIsland.cpp:591-661) for a
non-null cursor `(support_in = s, neighbor = e)`: returns the emitted
points, the new cursor (`none` = `nullptr`), the new process stack and the
new `is_first_neighbor` flag. -/
def thin_step (g : ThinGraph) (ends : List ThinPosition) (S half : Int)
    (s : Int) (e : Nat) (process : List (Int × Nat)) (is_first : Bool) :
    List (SPType × Nat × Int) × Option (Int × Nat) × List (Int × Nat) ×
      Bool :=
  match find_end ends e with
  | some pend =>
    ((edge_emit g ends S s e).1 ++
        (if (edge_emit g ends S s e).2 - pend.dist < half then
          [(SPType.thin_part, pend.neighbor, pend.dist)] else []),
      none, process, is_first)
  | none =>
    if is_first then
      ((edge_emit g ends S s e).1,
        (next_scan_go (edgeOf g e).twinId
          ((edge_emit g ends S s e).2 - (edgeOf g e).length)
          (g.nodeNeighbors (edgeOf g e).nodeId) none []).1,
        process ++ (next_scan_go (edgeOf g e).twinId
          ((edge_emit g ends S s e).2 - (edgeOf g e).length)
          (g.nodeNeighbors (edgeOf g e).nodeId) none []).2,
        false)
    else
      match find_twin process (edgeOf g e).twinId with
      | some _ =>
        ((edge_emit g ends S s e).1 ++
            (if (edge_emit g ends S s e).2 - (edgeOf g e).length < half then
              [(SPType.thin_part_loop, e, (edgeOf g e).length)] else []),
          none, erase_twin process (edgeOf g e).twinId, false)
      | none =>
        ((edge_emit g ends S s e).1,
          (next_scan_go (edgeOf g e).twinId
            ((edge_emit g ends S s e).2 - (edgeOf g e).length)
            (g.nodeNeighbors (edgeOf g e).nodeId) none []).1,
          process ++ (next_scan_go (edgeOf g e).twinId
            ((edge_emit g ends S s e).2 - (edgeOf g e).length)
            (g.nodeNeighbors (edgeOf g e).nodeId) none []).2,
          false)

/-- The full traversal loop `while (curr.neighbor != nullptr ||
!process.empty())` (UniformSupportIsland.cpp:591), fuelled; `none` means the
fuel ran out.  A null cursor pops `process.back()`. -/
def thin_go (g : ThinGraph) (ends : List ThinPosition) (S half : Int) :
    Nat → Option (Int × Nat) → List (Int × Nat) → Bool →
    Option (List (SPType × Nat × Int))
  | 0, _, _, _ => none
  | _ + 1, none, [], _ => some []
  | f + 1, none, p :: ps, is_first =>
    thin_go g ends S half f (some ((p :: ps).getLastD (0, 0)))
      (p :: ps).dropLast is_first
  | f + 1, some (s, e), process, is_first =>
    match thin_go g ends S half f
        (thin_step g ends S half s e process is_first).2.1
        (thin_step g ends S half s e process is_first).2.2.1
        (thin_step g ends S half s e process is_first).2.2.2 with
    | none => none
    | some rest => some ((thin_step g ends S half s e process is_first).1 ++
        rest)

/-- `create_supports_for_thin_part` (UniformSupportIsland.cpp:565-662):
`support_distance = thin_max_distance`, `half = support_distance / 2`;
start at the part center with `support_in = half + center.calc_distance()`
and seed the process stack with the center's twin at
`twin->length() - support_in + support_distance`. -/
def create_supports_for_thin_part (g : ThinGraph) (part : ThinPart)
    (S : Int) (fuel : Nat) : Option (List (SPType × Nat × Int)) :=
  thin_go g part.ends S (S.tdiv 2) fuel
    (some (S.tdiv 2 + part.center.dist, part.center.neighbor))
    [((edgeOf g (edgeOf g part.center.neighbor).twinId).length -
        (S.tdiv 2 + part.center.dist) + S,
      (edgeOf g part.center.neighbor).twinId)]
    true

theorem emit_go_types (S : Int) (e : Nat) (len : Int) :
    ∀ (f : Nat) (s : Int) (x : SPType × Nat × Int),
      x ∈ (emit_go S e len f s).1 → x.1 = SPType.thin_part_change := by
  intro f
  induction f with
  | zero =>
    intro s x hx
    simp [emit_go] at hx
  | succ f ih =>
    intro s x hx
    by_cases hc : s ≤ len
    · simp only [emit_go, if_pos hc, List.mem_cons] at hx
      rcases hx with rfl | hx
      · rfl
      · exact ih _ x hx
    · simp [emit_go, if_neg hc] at hx

theorem edge_emit_types (g : ThinGraph) (ends : List ThinPosition)
    (S s : Int) (e : Nat) (x : SPType × Nat × Int)
    (hx : x ∈ (edge_emit g ends S s e).1) :
    x.1 = SPType.thin_part_change := by
  unfold edge_emit at hx
  exact emit_go_types _ _ _ _ _ _ hx

/-- **C8** (amended): when the cursor reaches a neighbor that carries no part
end, is not the very first neighbor, and whose twin sits in the active
process stack (a cycle rendezvous), the step emits one final
`thin_part_loop` point at `Position(neighbor, 1.0)` — the far endpoint of
the rendezvous edge — if and only if the cursor's remaining countdown
`support_in` (after sampling the edge) is below `support_distance / 2`, and
then that branch stops (the cursor becomes null) and the twin's stack entry
is erased.  The countdown measures arc length along this branch's own
traversal since its last scheduled sample; the code never compares the
rendezvous point against the positions of already-emitted points, so the
claimed guard "no already-emitted point lies within `support_distance / 2`"
does not hold (see `C8_loop_point_near_previous`). -/
theorem C8_loop_rendezvous (g : ThinGraph) (ends : List ThinPosition)
    (S half s : Int) (e : Nat) (process : List (Int × Nat))
    (pr : Int × Nat) (hend : find_end ends e = none)
    (htwin : find_twin process (edgeOf g e).twinId = some pr) :
    ((SPType.thin_part_loop, e, (edgeOf g e).length) ∈
        (thin_step g ends S half s e process false).1 ↔
      (edge_emit g ends S s e).2 - (edgeOf g e).length < half) ∧
    (thin_step g ends S half s e process false).2.1 = none ∧
    (thin_step g ends S half s e process false).2.2.1 =
      erase_twin process (edgeOf g e).twinId := by
  have h1 : thin_step g ends S half s e process false =
      ((edge_emit g ends S s e).1 ++
          (if (edge_emit g ends S s e).2 - (edgeOf g e).length < half then
            [(SPType.thin_part_loop, e, (edgeOf g e).length)] else []),
        none, erase_twin process (edgeOf g e).twinId, false) := by
    unfold thin_step
    rw [hend, htwin]
    rfl
  rw [h1]
  refine ⟨?_, rfl, rfl⟩
  by_cases hc : (edge_emit g ends S s e).2 - (edgeOf g e).length < half
  · simp [hc]
  · simp only [if_neg hc, List.append_nil]
    constructor
    · intro hmem
      have h2 := edge_emit_types g ends S s e _ hmem
      simp at h2
    · intro hc2
      exact absurd hc2 hc

/-- Two-node ring (a closed thin loop): half-edges 0/1 between the nodes and
a second pair 2/3 back, all of length 100. -/
def c8_graph : ThinGraph :=
  ⟨[⟨1, 1, 100⟩, ⟨0, 0, 100⟩, ⟨3, 1, 100⟩, ⟨2, 0, 100⟩],
    fun n => if n = 0 then [0, 2] else [1, 3]⟩

/-- Thin part covering the whole ring: center at arc distance 50 on edge 0,
no ends. -/
def c8_part : ThinPart := ⟨⟨0, 50⟩, []⟩

/-- The traversal's output on the ring with `support_distance = 60`. -/
def c8_expected : List (SPType × Nat × Int) :=
  [(SPType.thin_part_change, 0, 80), (SPType.thin_part_change, 3, 40),
    (SPType.thin_part_change, 3, 100), (SPType.thin_part_change, 0, 60),
    (SPType.thin_part_loop, 0, 100)]

/-- **C8** (counterexample to the claimed guard): on the two-node ring with
`support_distance = 60` the traversal emits the loop point at arc distance
100 on edge 0 even though the already-emitted `thin_part_change` point at
arc distance 80 on the same straight edge lies only 20 < 60 / 2 away from
it; the code's guard `support_in < half_support_distance` looks at the
branch countdown (20 here), not at distances to emitted points. -/
theorem C8_loop_point_near_previous :
    create_supports_for_thin_part c8_graph c8_part 60 20 = some c8_expected ∧
    (SPType.thin_part_loop, 0, 100) ∈ c8_expected ∧
    (SPType.thin_part_change, 0, 80) ∈ c8_expected ∧
    (100 : Int) - 80 < (60 : Int).tdiv 2 := by
  refine ⟨by decide, by decide, by decide, by decide⟩

/-- Witness for `C8_loop_rendezvous` at the rendezvous state actually
reached on the two-node ring (`support_in = 60` on edge 0, twin 1 on the
stack). -/
theorem C8_loop_rendezvous_witness :
    ((SPType.thin_part_loop, 0, (edgeOf c8_graph 0).length) ∈
        (thin_step c8_graph [] 60 30 60 0 [(80, 1)] false).1 ↔
      (edge_emit c8_graph [] 60 60 0).2 - (edgeOf c8_graph 0).length < 30) ∧
    (thin_step c8_graph [] 60 30 60 0 [(80, 1)] false).2.1 = none ∧
    (thin_step c8_graph [] 60 30 60 0 [(80, 1)] false).2.2.1 =
      erase_twin [(80, 1)] (edgeOf c8_graph 0).twinId :=
  C8_loop_rendezvous c8_graph [] 60 30 60 0 [(80, 1)] (80, 1) rfl rfl

/-! ## C10: peninsula with no inner region -/

/-- An `ExPolygon`: a contour plus holes. -/
structure ExPoly where
  contour : List Pt
  holes : List (List Pt)
deriving DecidableEq, Repr

/-- `ExPolygon::empty()`: the contour has no points. -/
def ExPoly.isEmpty (e : ExPoly) : Bool := e.contour.isEmpty

/-- Modelled from the spec: a `Peninsula` (struct defined outside the
sources at hand; construction site `SupportPointGenerator.cpp:637` passes the
unsupported area and the per-line outline flags). -/
structure Peninsula where
  unsuported_area : ExPoly
  is_outline : List Bool

/-- The `Field` struct (UniformSupportIsland.cpp:873-885). -/
structure Field where
  border : ExPoly
  is_outline : List Bool
  inner : ExPoly
  field_2_inner : List (Nat × Nat)

/-- `outline_offset` (UniformSupportIsland.cpp:707-764).  `offsetFn` stands
for `ClipperLib` polygon offsetting (modelled from the spec: library code
outside the sources at hand) and `convFn` for the index-converter scan over
`to_lines` with floating-point direction/distance tests (likewise dependent
on geometry primitives outside the sources).  When the offset yields no
polygon the function returns a default-constructed pair — empty `ExPolygon`,
empty map (`if (polygons.empty()) return {}`); otherwise the first polygon
becomes the contour and the rest become holes. -/
def outline_offset (offsetFn : ExPoly → Int → List (List Pt))
    (convFn : ExPoly → ExPoly → List (Nat × Nat))
    (island : ExPoly) (offset_delta : Int) : ExPoly × List (Nat × Nat) :=
  match offsetFn island offset_delta with
  | [] => (⟨[], []⟩, [])
  | p :: ps => (⟨p, ps⟩, convFn island ⟨p, ps⟩)

/-- `uniform_support_peninsula` (UniformSupportIsland.cpp:2357-2377),
parametric in the downstream samplers: `sampleOutline` is `sample_outline`,
`innerSample` is `sample_expolygon_with_centering` (outside the sources at
hand), `alignFn` is `align_samples`.  The field is built from the peninsula's
unsupported area; if the inner offset is empty the function returns the empty
list before any sampling or alignment. -/
def uniform_support_peninsula
    (offsetFn : ExPoly → Int → List (List Pt))
    (convFn : ExPoly → ExPoly → List (Nat × Nat))
    (sampleOutline : Field → SampleConfig → List SupportPoint)
    (innerSample : ExPoly → Int → List Pt)
    (alignFn : List SupportPoint → ExPoly → SampleConfig → List SupportPoint)
    (peninsula : Peninsula) (config : SampleConfig) : List SupportPoint :=
  if (outline_offset offsetFn convFn peninsula.unsuported_area
      config.minimal_distance_from_outline).1.isEmpty then
    []
  else
    alignFn
      (sampleOutline
        ⟨peninsula.unsuported_area, peninsula.is_outline,
          (outline_offset offsetFn convFn peninsula.unsuported_area
            config.minimal_distance_from_outline).1,
          (outline_offset offsetFn convFn peninsula.unsuported_area
            config.minimal_distance_from_outline).2⟩ config ++
        (innerSample
          (outline_offset offsetFn convFn peninsula.unsuported_area
            config.minimal_distance_from_outline).1
          config.thick_inner_max_distance).map
          fun p => ⟨SPType.thick_part_inner, SPPos.planar p⟩)
      peninsula.unsuported_area config

/-- **C10**: whenever offsetting the peninsula's unsupported area inward by
`minimal_distance_from_outline` yields no polygon, `uniform_support_peninsula`
returns the empty point list — regardless of what the outline sampler, the
inner sampler and the aligner would do — with no sampling, no alignment and
no error. -/
theorem C10_peninsula_empty_offset
    (offsetFn : ExPoly → Int → List (List Pt))
    (convFn : ExPoly → ExPoly → List (Nat × Nat))
    (sampleOutline : Field → SampleConfig → List SupportPoint)
    (innerSample : ExPoly → Int → List Pt)
    (alignFn : List SupportPoint → ExPoly → SampleConfig → List SupportPoint)
    (peninsula : Peninsula) (config : SampleConfig)
    (h : offsetFn peninsula.unsuported_area
      config.minimal_distance_from_outline = []) :
    uniform_support_peninsula offsetFn convFn sampleOutline innerSample
      alignFn peninsula config = [] := by
  unfold uniform_support_peninsula outline_offset
  rw [h]
  rfl

/-- Witness for `C10_peninsula_empty_offset` at a concrete peninsula and an
offset function returning no polygon. -/
theorem C10_peninsula_empty_offset_witness :
    uniform_support_peninsula (fun _ _ => []) (fun _ _ => [])
      (fun _ _ => []) (fun _ _ => []) (fun r _ _ => r)
      ⟨⟨[⟨0, 0⟩, ⟨10, 0⟩, ⟨0, 10⟩], []⟩, [true, true, true]⟩
      ⟨10, 0, 20, 40, 50, 50, 50, 5, 25, 100, 10, 10, 10, 100, 200, 0⟩
      = [] :=
  C10_peninsula_empty_offset _ _ _ _ _ _ _ rfl

end SupIsl
